import Mathlib

/-!
# Verification of the Lab 2 reliable-UDP transport core

A shallow embedding of the packet codec (`protocol.h`), the receiver state
machine (`receiver.cpp`) and the sender state machine (`sender.cpp`) of the
weblab repository, together with proofs and refutations of the specified
properties.

Conventions:
* machine integers are modelled as `Nat`; the packed little-endian struct
  layout of `PacketHeader` and `SACKBlock` is made explicit in `headerBytes`
  and `sackBytes`;
* the repository contains two drafts of the codec and of the sender.  The
  draft whose `calculate_checksum` skips the checksum field and whose
  `verify_checksum` compares the recomputation against the stored field is
  suffixed `1`; the draft that sums every header byte and accepts when the
  recomputation is zero is suffixed `2`.  The polished `sender.cpp` /
  `receiver.cpp` store `htons(calculate_checksum())`, the other draft stores
  the value untouched; both conventions are modelled (`setChecksum2`,
  `setChecksum1`).
-/

namespace WebLab

/-- `MAX_DATA_SIZE` from protocol.h. -/
def MAX_DATA_SIZE : Nat := 1024

/-- `HEADER_SIZE` from protocol.h (also `sizeof(PacketHeader)`). -/
def HEADER_SIZE : Nat := 20

/-- `WINDOW_SIZE` from protocol.h. -/
def WINDOW_SIZE : Nat := 16

/-- Packet type codes from the `PacketType` enum. -/
def SYN_T : Nat := 1

def SYN_ACK_T : Nat := 2

def DATA_T : Nat := 3

def ACK_T : Nat := 4

def FIN_T : Nat := 5

def FIN_ACK_T : Nat := 6

def FILE_NAME_T : Nat := 7

def FILE_NAME_ACK_T : Nat := 8

/-- The packed header struct `PacketHeader` (1-byte aligned, 20 bytes). -/
structure PacketHeader where
  ptype : Nat
  flags : Nat
  checksum : Nat
  seq_num : Nat
  ack_num : Nat
  window_size : Nat
  data_length : Nat
  sack_count : Nat
deriving DecidableEq, Repr

/-- The packed `SACKBlock` struct (two `uint32_t`, 8 bytes). -/
structure SACKBlock where
  left_edge : Nat
  right_edge : Nat
deriving DecidableEq, Repr

/-- The `Packet` struct.  The C++ `data[1024]` array is zero-initialised and
only its first `data_length` bytes are ever serialized or summed; it is
modelled by the list of those meaningful bytes (reads beyond the list yield
the array's zero fill via `List.getD`). -/
structure Packet where
  header : PacketHeader
  data : List Nat
  sack_blocks : List SACKBlock
deriving DecidableEq, Repr

/-- `PacketHeader()` zero-initialises every field (memset). -/
def PacketHeader.zero : PacketHeader :=
  ⟨0, 0, 0, 0, 0, 0, 0, 0⟩

/-- `Packet()` : zero header, zero data, no SACK blocks. -/
def Packet.zero : Packet :=
  ⟨PacketHeader.zero, [], []⟩

/-! ## Byte-level layout helpers -/

/-- Little-endian bytes of a `uint16_t` value. -/
def le16 (x : Nat) : List Nat :=
  [x % 256, x / 256 % 256]

/-- Little-endian bytes of a `uint32_t` value. -/
def le32 (x : Nat) : List Nat :=
  [x % 256, x / 256 % 256, x / 65536 % 256, x / 16777216 % 256]

/-- Byte `i` of a buffer (missing bytes read as 0, like the zero-filled
receive buffer). -/
def byteAt (b : List Nat) (i : Nat) : Nat :=
  b.getD i 0

/-- Read a little-endian `uint16_t` at offset `i` (what `memcpy` into the
packed struct produces on the x86 target). -/
def rd16 (b : List Nat) (i : Nat) : Nat :=
  byteAt b i + 256 * byteAt b (i + 1)

/-- Read a little-endian `uint32_t` at offset `i`. -/
def rd32 (b : List Nat) (i : Nat) : Nat :=
  byteAt b i + 256 * byteAt b (i + 1) + 65536 * byteAt b (i + 2) +
    16777216 * byteAt b (i + 3)

/-- `n` consecutive bytes of a buffer starting at `off`. -/
def slice (b : List Nat) (off n : Nat) : List Nat :=
  (List.range n).map (fun i => byteAt b (off + i))

/-- The 20 bytes of the packed header, in memory order. -/
def headerBytes (h : PacketHeader) : List Nat :=
  [h.ptype % 256, h.flags % 256] ++ le16 h.checksum ++ le32 h.seq_num ++
    le32 h.ack_num ++ le16 h.window_size ++ le16 h.data_length ++
    le32 h.sack_count

/-- The `data_length` payload bytes that `serialize` copies out of the
zero-filled `data[1024]` array. -/
def dataBytes (p : Packet) : List Nat :=
  (List.range p.header.data_length).map (fun i => p.data.getD i 0)

/-- The 8 bytes of a packed `SACKBlock`. -/
def sackBytes (s : SACKBlock) : List Nat :=
  le32 s.left_edge ++ le32 s.right_edge

/-- `Packet::serialize`: header bytes, then `data_length` payload bytes, then
the SACK blocks. -/
def serialize (p : Packet) : List Nat :=
  headerBytes p.header ++ dataBytes p ++ (p.sack_blocks.map sackBytes).flatten

/-- `memcpy(&packet.header, buffer, sizeof(PacketHeader))`. -/
def parseHeader (b : List Nat) : PacketHeader where
  ptype := byteAt b 0
  flags := byteAt b 1
  checksum := rd16 b 2
  seq_num := rd32 b 4
  ack_num := rd32 b 8
  window_size := rd16 b 12
  data_length := rd16 b 14
  sack_count := rd32 b 16

/-- The SACK loop of `Packet::deserialize`: `count` iterations, each copying
one 8-byte block when it still fits and otherwise leaving the offset
unchanged. -/
def parseSacks (b : List Nat) : Nat → Nat → List SACKBlock
  | _, 0 => []
  | off, n + 1 =>
    if off + 8 ≤ b.length then
      ⟨rd32 b off, rd32 b (off + 4)⟩ :: parseSacks b (off + 8) n
    else
      parseSacks b off n

/-- `Packet::deserialize`.  Short buffers return the zero packet; a payload
that does not fit is not copied (the array keeps its zero fill and the offset
does not advance); SACK blocks are copied only while they fit. -/
def deserialize (b : List Nat) : Packet :=
  if b.length < HEADER_SIZE then Packet.zero
  else
    let h := parseHeader b
    if 0 < h.data_length ∧ HEADER_SIZE + h.data_length ≤ b.length then
      { header := h, data := slice b HEADER_SIZE h.data_length,
        sack_blocks := parseSacks b (HEADER_SIZE + h.data_length) h.sack_count }
    else
      { header := h, data := [],
        sack_blocks := parseSacks b HEADER_SIZE h.sack_count }

/-! ## The one's-complement checksum -/

/-- One step of the carry-folding loop. -/
def foldOnce (s : Nat) : Nat :=
  s % 65536 + s / 65536

/-- Fuel-driven implementation of `while (sum >> 16) sum = (sum & 0xFFFF) +
(sum >> 16);`.  Each genuine iteration decreases the sum by at least 65535,
so fuel `s` always suffices; the fuel only serves to make the function
structurally recursive. -/
def foldCarryAux : Nat → Nat → Nat
  | 0, s => s
  | fuel + 1, s => if 65536 ≤ s then foldCarryAux fuel (foldOnce s) else s

/-- The carry-folding loop of `calculate_checksum`. -/
def foldCarry (s : Nat) : Nat :=
  foldCarryAux s s

theorem foldOnce_lt {s : Nat} (h : 65536 ≤ s) : foldOnce s < s := by
  unfold foldOnce
  have h1 : 1 ≤ s / 65536 := (Nat.one_le_div_iff (by norm_num)).2 h
  have h2 : s % 65536 + 65536 * (s / 65536) = s := Nat.mod_add_div s 65536
  omega

theorem foldCarryAux_fuel {f1 f2 s : Nat} (h1 : s ≤ f1) (h2 : s ≤ f2) :
    foldCarryAux f1 s = foldCarryAux f2 s := by
  induction s using Nat.strong_induction_on generalizing f1 f2 with
  | _ s ih =>
    match f1, f2 with
    | 0, 0 => rfl
    | 0, g + 1 =>
      interval_cases s
      simp [foldCarryAux]
    | g + 1, 0 =>
      interval_cases s
      simp [foldCarryAux]
    | g1 + 1, g2 + 1 =>
      by_cases hs : 65536 ≤ s
      · have hlt := foldOnce_lt hs
        simp only [foldCarryAux, if_pos hs]
        exact ih (foldOnce s) hlt (by omega) (by omega)
      · simp [foldCarryAux, hs]

/-- The defining equation of the carry-folding while loop. -/
theorem foldCarry_spec (s : Nat) :
    foldCarry s = if 65536 ≤ s then foldCarry (foldOnce s) else s := by
  by_cases hs : 65536 ≤ s
  · obtain ⟨t, rfl⟩ : ∃ t, s = t + 1 := ⟨s - 1, by omega⟩
    have hlt := foldOnce_lt hs
    unfold foldCarry
    rw [if_pos hs]
    simp only [foldCarryAux, if_pos hs]
    exact foldCarryAux_fuel (by omega) (le_refl _)
  · unfold foldCarry
    rw [if_neg hs]
    match s with
    | 0 => rfl
    | t + 1 => simp [foldCarryAux, hs]

theorem foldCarry_lt (s : Nat) : foldCarry s < 65536 := by
  induction s using Nat.strong_induction_on with
  | _ s ih =>
    rw [foldCarry_spec]
    by_cases hs : 65536 ≤ s
    · rw [if_pos hs]
      exact ih _ (foldOnce_lt hs)
    · rw [if_neg hs]; omega

theorem foldCarry_mod (s : Nat) : foldCarry s % 65535 = s % 65535 := by
  induction s using Nat.strong_induction_on with
  | _ s ih =>
    rw [foldCarry_spec]
    by_cases hs : 65536 ≤ s
    · rw [if_pos hs, ih _ (foldOnce_lt hs)]
      have h2 : s % 65536 + 65536 * (s / 65536) = s := Nat.mod_add_div s 65536
      unfold foldOnce
      omega
    · rw [if_neg hs]

theorem foldCarry_pos {s : Nat} (h : 0 < s) : 0 < foldCarry s := by
  induction s using Nat.strong_induction_on with
  | _ s ih =>
    rw [foldCarry_spec]
    by_cases hs : 65536 ≤ s
    · rw [if_pos hs]
      refine ih _ (foldOnce_lt hs) ?_
      unfold foldOnce
      have h2 : s % 65536 + 65536 * (s / 65536) = s := Nat.mod_add_div s 65536
      omega
    · rwa [if_neg hs]

/-- The only positive multiple of 65535 below 65536 is 65535 itself, so a
positive sum that is a multiple of 65535 folds to exactly 65535. -/
theorem foldCarry_of_multiple {s : Nat} (hpos : 0 < s)
    (hmod : s % 65535 = 0) : foldCarry s = 65535 := by
  have h1 := foldCarry_lt s
  have h2 := foldCarry_mod s
  have h3 := foldCarry_pos hpos
  omega

/-! ## Word sums -/

/-- Big-endian 16-bit word sum of a byte list, an odd final byte padded with
a zero low byte — the accumulation pattern shared by all three loops of
`calculate_checksum`. -/
def byteWeightSum : List Nat → Nat
  | [] => 0
  | [a] => a * 256
  | a :: b :: rest => a * 256 + b + byteWeightSum rest

/-- Header word sum of the first draft: the word `(ptr[0] << 8) | ptr[1]`
followed by the words of bytes 4…19 (the checksum field is skipped). -/
def headerSum1 (h : PacketHeader) : Nat :=
  byteAt (headerBytes h) 0 * 256 + byteAt (headerBytes h) 1 +
    byteWeightSum ((headerBytes h).drop 4)

/-- Header word sum of the second draft: every byte pair of the header. -/
def headerSum2 (h : PacketHeader) : Nat :=
  byteWeightSum (headerBytes h)

/-- SACK word sum (all blocks, 4 words each). -/
def sackSum (l : List SACKBlock) : Nat :=
  (l.map (fun s => byteWeightSum (sackBytes s))).sum

/-- `calculate_checksum` of the first draft (checksum field skipped). -/
def calculate_checksum1 (p : Packet) : Nat :=
  65535 - foldCarry (headerSum1 p.header + byteWeightSum (dataBytes p) +
    sackSum p.sack_blocks)

/-- `calculate_checksum` of the second draft (whole header summed). -/
def calculate_checksum2 (p : Packet) : Nat :=
  65535 - foldCarry (headerSum2 p.header + byteWeightSum (dataBytes p) +
    sackSum p.sack_blocks)

/-- A packet with the checksum field cleared. -/
def zeroCk (p : Packet) : Packet :=
  { p with header := { p.header with checksum := 0 } }

/-- A packet with the checksum field set to `v`. -/
def withCk (p : Packet) (v : Nat) : Packet :=
  { p with header := { p.header with checksum := v } }

/-- `verify_checksum` of the first draft: clear the stored field, recompute,
compare with the stored value. -/
def verify_checksum1 (p : Packet) : Bool :=
  calculate_checksum1 (zeroCk p) == p.header.checksum

/-- `verify_checksum` of the second draft: the recomputation over the packet
with the transmitted checksum in place must be zero. -/
def verify_checksum2 (p : Packet) : Bool :=
  calculate_checksum2 p == 0

/-- `htons` on the little-endian target: swap the two bytes. -/
def byteswap16 (x : Nat) : Nat :=
  x % 256 * 256 + x / 256 % 256

/-- How the second-draft senders fill the field:
`header.checksum = htons(packet.calculate_checksum())`, computed while the
field still holds its zero initialisation. -/
def setChecksum2 (p : Packet) : Packet :=
  withCk p (byteswap16 (calculate_checksum2 (zeroCk p)))

/-- How the first-draft senders fill the field:
`header.checksum = packet.calculate_checksum()` (no byte swap). -/
def setChecksum1 (p : Packet) : Packet :=
  withCk p (calculate_checksum1 (zeroCk p))

/-- Well-formed packet: fields within their C types, the payload list is
exactly `data_length ≤ 1024` bytes, `sack_count` matches the SACK list, and
at most the three SACK blocks the protocol ever appends. -/
def WellFormed (p : Packet) : Prop :=
  p.header.ptype < 256 ∧ p.header.flags < 256 ∧ p.header.checksum < 65536 ∧
    p.header.seq_num < 4294967296 ∧ p.header.ack_num < 4294967296 ∧
    p.header.window_size < 65536 ∧
    p.header.data_length = p.data.length ∧ p.data.length ≤ MAX_DATA_SIZE ∧
    p.header.sack_count = p.sack_blocks.length ∧ p.sack_blocks.length ≤ 3 ∧
    (∀ x ∈ p.data, x < 256) ∧
    (∀ s ∈ p.sack_blocks, s.left_edge < 4294967296 ∧ s.right_edge < 4294967296)

instance (p : Packet) : Decidable (WellFormed p) := by
  unfold WellFormed
  infer_instance

/-! ## Round-trip lemmas -/

theorem byteAt_append_lt {l l' : List Nat} {i : Nat} (h : i < l.length) :
    byteAt (l ++ l') i = byteAt l i :=
  List.getD_append _ _ _ _ h

theorem byteAt_append_ge {l l' : List Nat} {i : Nat} (h : l.length ≤ i) :
    byteAt (l ++ l') i = byteAt l' (i - l.length) :=
  List.getD_append_right _ _ _ _ h

theorem byteAt_mid (pre mid rest : List Nat) (j : Nat) (hj : j < mid.length) :
    byteAt (pre ++ (mid ++ rest)) (pre.length + j) = byteAt mid j := by
  rw [byteAt_append_ge (by omega)]
  have e : pre.length + j - pre.length = j := by omega
  rw [e, byteAt_append_lt hj]

theorem headerBytes_length (h : PacketHeader) : (headerBytes h).length = 20 := by
  simp [headerBytes, le16, le32]

theorem map_getD_range (d : List Nat) :
    (List.range d.length).map (fun i => d.getD i 0) = d := by
  induction d with
  | nil => rfl
  | cons a t ih =>
    rw [List.length_cons, List.range_succ_eq_map, List.map_cons, List.map_map]
    have e1 : (a :: t).getD 0 0 = a := List.getD_cons_zero
    rw [e1]
    refine congrArg (a :: ·) ?_
    have e2 : (List.range t.length).map ((fun i => (a :: t).getD i 0) ∘ Nat.succ)
        = (List.range t.length).map (fun i => t.getD i 0) := by
      refine List.map_congr_left fun i _ => ?_
      simp [Function.comp, List.getD_cons_succ]
    rw [e2, ih]

theorem dataBytes_length (p : Packet) :
    (dataBytes p).length = p.header.data_length := by
  simp [dataBytes]

theorem dataBytes_eq_data (p : Packet) (h : p.header.data_length = p.data.length) :
    dataBytes p = p.data := by
  unfold dataBytes
  rw [h]
  exact map_getD_range p.data

theorem sackBytes_length (s : SACKBlock) : (sackBytes s).length = 8 := by
  simp [sackBytes, le32]

theorem sackFlat_length (l : List SACKBlock) :
    ((l.map sackBytes).flatten).length = 8 * l.length := by
  induction l with
  | nil => simp
  | cons s t ih =>
    rw [List.map_cons, List.flatten_cons, List.length_append, ih,
      sackBytes_length, List.length_cons]
    ring

theorem serialize_length (p : Packet) :
    (serialize p).length =
      20 + p.header.data_length + 8 * p.sack_blocks.length := by
  unfold serialize
  rw [List.length_append, List.length_append, headerBytes_length,
    dataBytes_length, sackFlat_length]

theorem parseHeader_of_headerBytes (h : PacketHeader) (rest : List Nat)
    (h1 : h.ptype < 256) (h2 : h.flags < 256) (h3 : h.checksum < 65536)
    (h4 : h.seq_num < 4294967296) (h5 : h.ack_num < 4294967296)
    (h6 : h.window_size < 65536) (h7 : h.data_length < 65536)
    (h8 : h.sack_count < 4294967296) :
    parseHeader (headerBytes h ++ rest) = h := by
  cases h with
  | mk pt fl ck sq ak ws dl sc =>
    simp only at h1 h2 h3 h4 h5 h6 h7 h8
    simp only [parseHeader, headerBytes, le16, le32, byteAt, rd16, rd32,
      List.cons_append, List.nil_append, List.getD_cons_succ,
      List.getD_cons_zero, PacketHeader.mk.injEq]
    refine ⟨?_, ?_, ?_, ?_, ?_, ?_, ?_, ?_⟩ <;> omega

theorem rd32_append_le32 (pre : List Nat) (x : Nat) (rest : List Nat)
    (hx : x < 4294967296) :
    rd32 (pre ++ (le32 x ++ rest)) pre.length = x := by
  have h0 := byteAt_mid pre (le32 x) rest 0 (by simp [le32])
  have h1 := byteAt_mid pre (le32 x) rest 1 (by simp [le32])
  have h2 := byteAt_mid pre (le32 x) rest 2 (by simp [le32])
  have h3 := byteAt_mid pre (le32 x) rest 3 (by simp [le32])
  rw [Nat.add_zero] at h0
  unfold rd32
  rw [h0, h1, h2, h3]
  simp only [le32, byteAt, List.getD_cons_zero, List.getD_cons_succ]
  omega

theorem slice_append_exact (pre d rest : List Nat) :
    slice (pre ++ (d ++ rest)) pre.length d.length = d := by
  unfold slice
  calc (List.range d.length).map
        (fun i => byteAt (pre ++ (d ++ rest)) (pre.length + i))
      = (List.range d.length).map (fun i => d.getD i 0) := by
        refine List.map_congr_left fun i hi => ?_
        rw [byteAt_mid pre d rest i (List.mem_range.1 hi)]
        rfl
    _ = d := map_getD_range d

theorem parseSacks_exact (sacks : List SACKBlock) (pre : List Nat)
    (hwf : ∀ s ∈ sacks, s.left_edge < 4294967296 ∧ s.right_edge < 4294967296) :
    parseSacks (pre ++ (sacks.map sackBytes).flatten) pre.length sacks.length
      = sacks := by
  induction sacks generalizing pre with
  | nil => rfl
  | cons s t ih =>
    have hs := hwf s (by simp)
    have ht : ∀ x ∈ t, x.left_edge < 4294967296 ∧ x.right_edge < 4294967296 :=
      fun x hx => hwf x (by simp [hx])
    simp only [List.map_cons, List.flatten_cons, List.length_cons]
    have hfit : pre.length + 8 ≤
        (pre ++ (sackBytes s ++ (t.map sackBytes).flatten)).length := by
      simp [sackBytes, le32]
    unfold parseSacks
    rw [if_pos hfit]
    have hleft : rd32 (pre ++ (sackBytes s ++ (t.map sackBytes).flatten))
        pre.length = s.left_edge := by
      have : sackBytes s ++ (t.map sackBytes).flatten =
          le32 s.left_edge ++ (le32 s.right_edge ++ (t.map sackBytes).flatten) := by
        simp [sackBytes]
      rw [this]
      exact rd32_append_le32 pre _ _ hs.1
    have hright : rd32 (pre ++ (sackBytes s ++ (t.map sackBytes).flatten))
        (pre.length + 4) = s.right_edge := by
      have e1 : pre ++ (sackBytes s ++ (t.map sackBytes).flatten) =
          (pre ++ le32 s.left_edge) ++
            (le32 s.right_edge ++ (t.map sackBytes).flatten) := by
        simp [sackBytes]
      have e2 : pre.length + 4 = (pre ++ le32 s.left_edge).length := by
        simp [le32]
      rw [e1, e2]
      exact rd32_append_le32 _ _ _ hs.2
    have hrec : parseSacks (pre ++ (sackBytes s ++ (t.map sackBytes).flatten))
        (pre.length + 8) t.length = t := by
      have e1 : pre ++ (sackBytes s ++ (t.map sackBytes).flatten) =
          (pre ++ sackBytes s) ++ (t.map sackBytes).flatten := by
        simp
      have e2 : pre.length + 8 = (pre ++ sackBytes s).length := by
        simp [sackBytes, le32]
      rw [e1, e2]
      exact ih (pre ++ sackBytes s) ht
    rw [hleft, hright, hrec]

/-- Wire round-trip: deserializing a serialized well-formed packet gives the
packet back exactly (the payload is represented without its trailing zero
padding, so the equality is on the nose). -/
theorem deserialize_serialize (p : Packet) (hwf : WellFormed p) :
    deserialize (serialize p) = p := by
  obtain ⟨h1, h2, h3, h4, h5, h6, h7, h8, h9, h10, h11, h12⟩ := hwf
  have hdl : p.header.data_length < 65536 := by
    rw [h7]; unfold MAX_DATA_SIZE at h8; omega
  have hsc : p.header.sack_count < 4294967296 := by
    rw [h9]; omega
  have hlen := serialize_length p
  have hdata := dataBytes_eq_data p h7
  have hser : serialize p = headerBytes p.header ++
      (p.data ++ (p.sack_blocks.map sackBytes).flatten) := by
    simp [serialize, hdata]
  have hhdr : parseHeader (serialize p) = p.header := by
    rw [hser]
    exact parseHeader_of_headerBytes p.header _ h1 h2 h3 h4 h5 h6 hdl hsc
  have hslice : slice (serialize p) 20 p.header.data_length = p.data := by
    have e : (20 : Nat) = (headerBytes p.header).length := by
      rw [headerBytes_length]
    rw [hser, h7, e]
    exact slice_append_exact _ _ _
  have hsacks : parseSacks (serialize p) (20 + p.header.data_length)
      p.header.sack_count = p.sack_blocks := by
    have e1 : serialize p = (headerBytes p.header ++ p.data) ++
        (p.sack_blocks.map sackBytes).flatten := by
      rw [hser]; simp
    have e2 : 20 + p.header.data_length = (headerBytes p.header ++ p.data).length := by
      simp [headerBytes_length, h7]
    rw [e1, e2, h9]
    exact parseSacks_exact _ _ h12
  unfold deserialize
  rw [if_neg (by unfold HEADER_SIZE; omega)]
  simp only [hhdr]
  by_cases hpos : 0 < p.header.data_length
  · rw [if_pos ⟨hpos, by unfold HEADER_SIZE; omega⟩]
    unfold HEADER_SIZE
    rw [hslice, hsacks]
  · have hz : p.header.data_length = 0 := by omega
    rw [if_neg (by omega)]
    unfold HEADER_SIZE
    have hdz : p.data = [] := by
      have := h7.symm.trans hz
      exact List.eq_nil_of_length_eq_zero this
    have hps : parseSacks (serialize p) 20 p.header.sack_count = p.sack_blocks := by
      have e := hsacks
      rw [hz] at e
      simpa using e
    rw [hps, ← hdz]

/-! ## Checksum correctness -/

theorem byteswap16_lt (x : Nat) : byteswap16 x < 65536 := by
  unfold byteswap16
  omega

theorem byteswap16_involutive {x : Nat} (hx : x < 65536) :
    byteswap16 (byteswap16 x) = x := by
  unfold byteswap16
  have h1 : x / 256 < 256 := by omega
  have h2 : x / 256 % 256 = x / 256 := Nat.mod_eq_of_lt h1
  rw [h2]
  have h3 : (x % 256 * 256 + x / 256) % 256 = x / 256 := by omega
  have h4 : (x % 256 * 256 + x / 256) / 256 = x % 256 := by omega
  rw [h3, h4]
  omega

theorem headerSum2_withCk (h : PacketHeader) (v : Nat) :
    headerSum2 { h with checksum := v } =
      headerSum2 { h with checksum := 0 } + byteswap16 v := by
  cases h with
  | mk pt fl ck sq ak ws dl sc =>
    simp only [headerSum2, headerBytes, le16, le32, List.cons_append,
      List.nil_append, byteWeightSum, byteswap16]
    ring_nf

theorem headerSum1_withCk (h : PacketHeader) (v : Nat) :
    headerSum1 { h with checksum := v } = headerSum1 { h with checksum := 0 } := by
  cases h with
  | mk pt fl ck sq ak ws dl sc =>
    simp [headerSum1, headerBytes, le16, le32, byteAt, byteWeightSum]

theorem foldCarry_zero : foldCarry 0 = 0 := rfl

theorem headerSum1_ck_irrel (h : PacketHeader) :
    headerSum1 { h with checksum := 0 } = headerSum1 h := by
  cases h with
  | mk pt fl ck sq ak ws dl sc =>
    simp [headerSum1, headerBytes, le16, le32, byteAt, byteWeightSum]

theorem headerSum2_withCk_packet (p : Packet) (v : Nat) :
    headerSum2 (withCk p v).header =
      headerSum2 (zeroCk p).header + byteswap16 v := by
  have e1 : (withCk p v).header = { p.header with checksum := v } := rfl
  have e2 : (zeroCk p).header = { p.header with checksum := 0 } := rfl
  rw [e1, e2, headerSum2_withCk]

/-- The core one's-complement identity: adding the complement of the folded
sum back into the sum folds to all-ones. -/
theorem foldCarry_complement (t : Nat) :
    foldCarry (t + (65535 - foldCarry t)) = 65535 := by
  have hl := foldCarry_lt t
  have hm := foldCarry_mod t
  have hp : 0 < t + (65535 - foldCarry t) := by
    by_cases ht : t = 0
    · subst ht
      rw [foldCarry_zero]
      omega
    · omega
  refine foldCarry_of_multiple hp ?_
  omega

theorem zeroCk_withCk (p : Packet) (v : Nat) : zeroCk (withCk p v) = zeroCk p := rfl

theorem verify2_setChecksum2 (p : Packet) :
    verify_checksum2 (setChecksum2 p) = true := by
  unfold verify_checksum2 setChecksum2
  have hc : calculate_checksum2 (zeroCk p) < 65536 := by
    unfold calculate_checksum2
    omega
  set c := calculate_checksum2 (zeroCk p) with hcdef
  have hsum : headerSum2 (withCk p (byteswap16 c)).header +
      byteWeightSum (dataBytes (withCk p (byteswap16 c))) +
      sackSum (withCk p (byteswap16 c)).sack_blocks =
      (headerSum2 (zeroCk p).header + byteWeightSum (dataBytes (zeroCk p)) +
        sackSum (zeroCk p).sack_blocks) + c := by
    rw [headerSum2_withCk_packet p (byteswap16 c), byteswap16_involutive hc]
    have e3 : dataBytes (withCk p (byteswap16 c)) = dataBytes (zeroCk p) := rfl
    have e4 : (withCk p (byteswap16 c)).sack_blocks = (zeroCk p).sack_blocks := rfl
    rw [e3, e4]
    ring
  unfold calculate_checksum2
  rw [hsum]
  have hceq : c = 65535 - foldCarry (headerSum2 (zeroCk p).header +
      byteWeightSum (dataBytes (zeroCk p)) + sackSum (zeroCk p).sack_blocks) := by
    rw [hcdef]
    rfl
  rw [hceq, foldCarry_complement]
  simp

theorem verify1_setChecksum1 (p : Packet) :
    verify_checksum1 (setChecksum1 p) = true := by
  unfold verify_checksum1 setChecksum1
  rw [zeroCk_withCk]
  simp [withCk]

theorem wellFormed_withCk (p : Packet) (v : Nat) (hv : v < 65536)
    (hwf : WellFormed p) : WellFormed (withCk p v) := by
  obtain ⟨h1, h2, h3, h4, h5, h6, h7, h8, h9, h10, h11, h12⟩ := hwf
  exact ⟨h1, h2, hv, h4, h5, h6, h7, h8, h9, h10, h11, h12⟩

theorem wellFormed_setChecksum2 (p : Packet) (hwf : WellFormed p) :
    WellFormed (setChecksum2 p) :=
  wellFormed_withCk p _ (byteswap16_lt _) hwf

theorem wellFormed_setChecksum1 (p : Packet) (hwf : WellFormed p) :
    WellFormed (setChecksum1 p) := by
  refine wellFormed_withCk p _ ?_ hwf
  unfold calculate_checksum1
  omega

/-- C1.  Codec round-trip: for a well-formed packet with the checksum field
filled the way the senders fill it (`htons(calculate_checksum())` in the
polished draft, the raw value in the other draft), deserializing the
serialized bytes returns the packet unchanged (payload padding is not
represented, so equality is exact), and checksum verification of the
deserialized packet succeeds — for both drafts of the codec. -/
theorem codec_round_trip (p : Packet) (hwf : WellFormed p) :
    (deserialize (serialize (setChecksum2 p)) = setChecksum2 p ∧
      verify_checksum2 (deserialize (serialize (setChecksum2 p))) = true) ∧
    (deserialize (serialize (setChecksum1 p)) = setChecksum1 p ∧
      verify_checksum1 (deserialize (serialize (setChecksum1 p))) = true) := by
  have hrt2 := deserialize_serialize _ (wellFormed_setChecksum2 p hwf)
  have hrt1 := deserialize_serialize _ (wellFormed_setChecksum1 p hwf)
  refine ⟨⟨hrt2, ?_⟩, ⟨hrt1, ?_⟩⟩
  · rw [hrt2]
    exact verify2_setChecksum2 p
  · rw [hrt1]
    exact verify1_setChecksum1 p

/-- Concrete DATA packet used to witness C1. -/
def wPacket : Packet :=
  ⟨⟨3, 0, 0, 7, 0, 0, 2, 1⟩, [65, 66], [⟨9, 12⟩]⟩

/-- Witness for C1 at a concrete packet. -/
theorem codec_round_trip_witness :
    WellFormed wPacket ∧
    ((deserialize (serialize (setChecksum2 wPacket)) = setChecksum2 wPacket ∧
      verify_checksum2 (deserialize (serialize (setChecksum2 wPacket))) = true) ∧
    (deserialize (serialize (setChecksum1 wPacket)) = setChecksum1 wPacket ∧
      verify_checksum1 (deserialize (serialize (setChecksum1 wPacket))) = true)) :=
  ⟨by decide, codec_round_trip wPacket (by decide)⟩

/-! ## Truncated buffers (C7) -/

theorem slice_length (b : List Nat) (off n : Nat) : (slice b off n).length = n := by
  simp [slice]

theorem parseSacks_length_bound (b : List Nat) :
    ∀ (n off : Nat), off + 8 * (parseSacks b off n).length ≤ max b.length off := by
  intro n
  induction n with
  | zero => intro off; simp [parseSacks]
  | succ m ih =>
    intro off
    unfold parseSacks
    by_cases hfit : off + 8 ≤ b.length
    · rw [if_pos hfit]
      have := ih (off + 8)
      simp only [List.length_cons]
      have hmax : max b.length (off + 8) = b.length := by omega
      rw [hmax] at this
      have : off + 8 + 8 * (parseSacks b (off + 8) m).length ≤ b.length := this
      omega
    · rw [if_neg hfit]
      exact ih off

/-- Graceful truncation: whatever the buffer, the parsed payload and SACK
blocks lie entirely inside it (deserialize never reads past the buffer). -/
theorem deserialize_fits (b : List Nat) :
    HEADER_SIZE + (deserialize b).data.length +
      8 * (deserialize b).sack_blocks.length ≤ max b.length HEADER_SIZE := by
  unfold deserialize
  by_cases hshort : b.length < HEADER_SIZE
  · rw [if_pos hshort]
    simp [Packet.zero]
  · rw [if_neg hshort]
    unfold HEADER_SIZE at *
    by_cases hdata : 0 < (parseHeader b).data_length ∧
        20 + (parseHeader b).data_length ≤ b.length
    · rw [if_pos hdata]
      simp only [slice_length]
      have := parseSacks_length_bound b (parseHeader b).sack_count
        (20 + (parseHeader b).data_length)
      have hmax : max b.length (20 + (parseHeader b).data_length) = b.length := by
        omega
      rw [hmax] at this
      omega
    · rw [if_neg hdata]
      simp only [List.length_nil]
      have := parseSacks_length_bound b (parseHeader b).sack_count 20
      have hmax : max b.length 20 = b.length := by omega
      rw [hmax] at this
      omega

/-! ## Single-bit flips (C8) -/

/-- Flip bit `r` of the byte value `a`. -/
def flipByte (a r : Nat) : Nat :=
  if a.testBit r then a - 2 ^ r else a + 2 ^ r

/-- The buffer with bit `r` of byte `t` flipped. -/
def flipBitAt (b : List Nat) (t r : Nat) : List Nat :=
  b.set t (flipByte (byteAt b t) r)

/-- Big-endian weight of the byte at (region-relative) position `n`. -/
def bw (n : Nat) : Nat :=
  if n % 2 = 0 then 256 else 1

theorem flipByte_lt {a r : Nat} (ha : a < 256) (hr : r < 8) :
    flipByte a r < 256 := by
  unfold flipByte
  by_cases hb : a.testBit r
  · rw [if_pos hb]
    exact Nat.lt_of_le_of_lt (Nat.sub_le a _) ha
  · rw [if_neg hb]
    rw [Nat.testBit_to_div_mod] at hb
    interval_cases r <;> simp_all <;> omega

theorem flipByte_cases {a r : Nat} :
    (flipByte a r = a + 2 ^ r) ∨
      (2 ^ r ≤ a ∧ a = flipByte a r + 2 ^ r) := by
  unfold flipByte
  by_cases hb : a.testBit r
  · right
    have h2 : (2 : Nat) ^ r ≤ a := Nat.testBit_implies_ge hb
    rw [if_pos hb]
    omega
  · left
    rw [if_neg hb]

theorem byteAt_set_ne {b : List Nat} {t j : Nat} (h : t ≠ j) (v : Nat) :
    byteAt (b.set t v) j = byteAt b j := by
  unfold byteAt List.getD
  rw [List.get?_eq_getElem?, List.get?_eq_getElem?, List.getElem?_set_ne h]

theorem byteAt_set_self {b : List Nat} {t : Nat} (h : t < b.length) (v : Nat) :
    byteAt (b.set t v) t = v := by
  unfold byteAt List.getD
  rw [List.get?_eq_getElem?, List.getElem?_set_self h]
  rfl

theorem byteAt_lt_of_forall {b : List Nat} (hb : ∀ x ∈ b, x < 256) (j : Nat) :
    byteAt b j < 256 := by
  unfold byteAt
  by_cases hj : j < b.length
  · rw [List.getD_eq_getElem _ _ hj]
    exact hb _ (List.getElem_mem hj)
  · rw [List.getD_eq_default _ _ (by omega)]
    omega

theorem rd16_set_outside {b : List Nat} {t i : Nat} (v : Nat)
    (h1 : t ≠ i) (h2 : t ≠ i + 1) : rd16 (b.set t v) i = rd16 b i := by
  unfold rd16
  rw [byteAt_set_ne h1, byteAt_set_ne h2]

theorem rd32_set_outside {b : List Nat} {t i : Nat} (v : Nat)
    (h1 : t ≠ i) (h2 : t ≠ i + 1) (h3 : t ≠ i + 2) (h4 : t ≠ i + 3) :
    rd32 (b.set t v) i = rd32 b i := by
  unfold rd32
  rw [byteAt_set_ne h1, byteAt_set_ne h2, byteAt_set_ne h3, byteAt_set_ne h4]

theorem slice_set_outside {b : List Nat} {t off n : Nat} (v : Nat)
    (h : t < off ∨ off + n ≤ t) :
    slice (b.set t v) off n = slice b off n := by
  unfold slice
  refine List.map_congr_left fun i hi => ?_
  have hi' := List.mem_range.1 hi
  exact byteAt_set_ne (by omega) v

theorem slice_set_inside {b : List Nat} {t off n : Nat} (v : Nat)
    (h1 : off ≤ t) (h2 : t < off + n) (h3 : t < b.length) :
    slice (b.set t v) off n = (slice b off n).set (t - off) v := by
  refine List.ext_getElem ?_ ?_
  · simp [slice_length]
  · intro i hlen hlen'
    rw [slice_length] at hlen
    have e1 : (slice (b.set t v) off n)[i] = byteAt (b.set t v) (off + i) := by
      simp [slice]
    have e2 : ((slice b off n).set (t - off) v)[i] =
        if t - off = i then v else byteAt b (off + i) := by
      rw [List.getElem_set]
      by_cases he : t - off = i
      · rw [if_pos he, if_pos he]
      · rw [if_neg he, if_neg he]
        simp [slice]
    rw [e1, e2]
    by_cases he : t - off = i
    · rw [if_pos he]
      have ht : off + i = t := by omega
      rw [ht]
      exact byteAt_set_self h3 v
    · rw [if_neg he]
      exact byteAt_set_ne (by omega) v

theorem byteWeightSum_append_even (l l' : List Nat) (h : l.length % 2 = 0) :
    byteWeightSum (l ++ l') = byteWeightSum l + byteWeightSum l' := by
  induction l using byteWeightSum.induct with
  | case1 => simp [byteWeightSum]
  | case2 a => simp at h
  | case3 a b rest ih =>
    simp only [List.cons_append, byteWeightSum, List.append_eq]
    rw [ih (by simp at h; omega)]
    ring

theorem bw_add_two (n : Nat) : bw (n + 2) = bw n := by
  simp [bw, Nat.add_mod_right]

theorem bw_cases (n : Nat) : bw n = 256 ∨ bw n = 1 := by
  unfold bw
  by_cases h : n % 2 = 0
  · left; rw [if_pos h]
  · right; rw [if_neg h]

theorem byteWeightSum_set (l : List Nat) (n v : Nat) (hn : n < l.length) :
    byteWeightSum (l.set n v) + bw n * l.getD n 0 =
      byteWeightSum l + bw n * v := by
  induction l using byteWeightSum.induct generalizing n with
  | case1 => simp at hn
  | case2 a =>
    match n, hn with
    | 0, _ =>
      simp only [List.set, byteWeightSum, List.getD_cons_zero, bw]
      norm_num
      ring
  | case3 a b rest ih =>
    match n, hn with
    | 0, _ =>
      simp only [List.set, byteWeightSum, List.getD_cons_zero, bw]
      norm_num
      ring
    | 1, _ =>
      simp only [List.set, byteWeightSum, List.getD_cons_succ,
        List.getD_cons_zero, bw]
      norm_num
      ring
    | n + 2, hn =>
      have hn' : n < rest.length := by simp at hn; omega
      have ihn := ih n hn'
      simp only [List.set, byteWeightSum, List.getD_cons_succ, bw_add_two]
      omega

theorem slice_add (b : List Nat) (off m n : Nat) :
    slice b off (m + n) = slice b off m ++ slice b (off + m) n := by
  unfold slice
  rw [List.range_add, List.map_append, List.map_map]
  refine congrArg (_ ++ ·) (List.map_congr_left fun i _ => ?_)
  simp only [Function.comp_apply]
  refine congrArg (byteAt b) (by omega)

theorem slice_getD (b : List Nat) (off n i : Nat) (hi : i < n) :
    (slice b off n).getD i 0 = byteAt b (off + i) := by
  unfold slice
  rw [List.getD_eq_getElem _ _ (by simpa using hi)]
  simp

/-- `le32` recovers the four raw bytes of a little-endian read. -/
theorem le32_rd32 (b : List Nat) (off : Nat)
    (hb : ∀ j, byteAt b j < 256) :
    le32 (rd32 b off) = [byteAt b off, byteAt b (off + 1), byteAt b (off + 2),
      byteAt b (off + 3)] := by
  have h0 := hb off
  have h1 := hb (off + 1)
  have h2 := hb (off + 2)
  have h3 := hb (off + 3)
  simp only [le32, rd32, List.cons.injEq, and_true]
  refine ⟨by omega, by omega, by omega, by omega⟩

theorem le16_rd16 (b : List Nat) (off : Nat)
    (hb : ∀ j, byteAt b j < 256) :
    le16 (rd16 b off) = [byteAt b off, byteAt b (off + 1)] := by
  have h0 := hb off
  have h1 := hb (off + 1)
  simp only [le16, rd16, List.cons.injEq, and_true]
  refine ⟨by omega, by omega⟩

/-- The SACK word sum of a fully-parsed SACK region is the word sum of its
raw bytes. -/
theorem sackSum_parseSacks (b : List Nat) (hb : ∀ j, byteAt b j < 256) :
    ∀ (k off : Nat), off + 8 * k ≤ b.length →
      sackSum (parseSacks b off k) = byteWeightSum (slice b off (8 * k)) := by
  intro k
  induction k with
  | zero =>
    intro off _
    simp [parseSacks, sackSum, slice, byteWeightSum]
  | succ m ih =>
    intro off hfit
    have h8 : off + 8 ≤ b.length := by omega
    unfold parseSacks
    rw [if_pos h8]
    have hrest := ih (off + 8) (by omega)
    have hsum : sackSum (⟨rd32 b off, rd32 b (off + 4)⟩ ::
        parseSacks b (off + 8) m) =
        byteWeightSum (sackBytes ⟨rd32 b off, rd32 b (off + 4)⟩) +
          sackSum (parseSacks b (off + 8) m) := by
      simp [sackSum]
    rw [hsum, hrest]
    have hblock : sackBytes ⟨rd32 b off, rd32 b (off + 4)⟩ = slice b off 8 := by
      unfold sackBytes
      rw [le32_rd32 b off hb, le32_rd32 b (off + 4) hb]
      have hr : List.range 8 = [0, 1, 2, 3, 4, 5, 6, 7] := by decide
      simp only [slice, hr, List.map_cons, List.map_nil, List.cons_append,
        List.nil_append]
      norm_num
    have hsplit : slice b off (8 * (m + 1)) =
        slice b off 8 ++ slice b (off + 8) (8 * m) := by
      have e : 8 * (m + 1) = 8 + 8 * m := by ring
      rw [e, slice_add]
    rw [hsplit, byteWeightSum_append_even _ _ (by rw [slice_length]), hblock]

/-- The raw header bytes of a buffer are recovered exactly by re-serializing
the parsed header. -/
theorem headerBytes_parseHeader (b : List Nat) (hb : ∀ j, byteAt b j < 256) :
    headerBytes (parseHeader b) =
      [byteAt b 0, byteAt b 1, byteAt b 2, byteAt b 3, byteAt b 4, byteAt b 5,
        byteAt b 6, byteAt b 7, byteAt b 8, byteAt b 9, byteAt b 10,
        byteAt b 11, byteAt b 12, byteAt b 13, byteAt b 14, byteAt b 15,
        byteAt b 16, byteAt b 17, byteAt b 18, byteAt b 19] := by
  have e2 := le16_rd16 b 2 hb
  have e4 := le32_rd32 b 4 hb
  have e8 := le32_rd32 b 8 hb
  have e12 := le16_rd16 b 12 hb
  have e14 := le16_rd16 b 14 hb
  have e16 := le32_rd32 b 16 hb
  have h0 := hb 0
  have h1 := hb 1
  simp only [headerBytes, parseHeader, e2, e4, e8, e12, e14, e16]
  norm_num
  refine ⟨?_, ?_⟩ <;> omega

/-- The first-draft checksum base sum, read off the raw buffer: the skipped
checksum word is bytes 2–3; everything else of the exact-fit buffer is
summed big-endian. -/
def bufSum1 (b : List Nat) : Nat :=
  byteWeightSum (slice b 0 2) + byteWeightSum (slice b 4 16) +
    byteWeightSum (slice b 20 (rd16 b 14)) +
    byteWeightSum (slice b (20 + rd16 b 14) (8 * rd32 b 16))

/-- Characterisation of `deserialize` on exact-fit buffers. -/
theorem deserialize_spec (b : List Nat) (h20 : 20 ≤ b.length)
    (hfit : b.length = 20 + rd16 b 14 + 8 * rd32 b 16) :
    deserialize b =
      { header := parseHeader b, data := slice b 20 (rd16 b 14),
        sack_blocks := parseSacks b (20 + rd16 b 14) (rd32 b 16) } := by
  have hdl : (parseHeader b).data_length = rd16 b 14 := rfl
  have hsc : (parseHeader b).sack_count = rd32 b 16 := rfl
  unfold deserialize
  rw [if_neg (by unfold HEADER_SIZE; omega)]
  simp only [hdl, hsc]
  unfold HEADER_SIZE
  by_cases hpos : 0 < rd16 b 14
  · rw [if_pos ⟨hpos, by omega⟩]
  · rw [if_neg (by omega)]
    have hz : rd16 b 14 = 0 := by omega
    have hsl : slice b 20 (rd16 b 14) = [] := by
      rw [hz]
      simp [slice]
    rw [hsl, hz]

/-- `verify_checksum1` unfolded over the three packet components. -/
theorem verify1_components (hd : PacketHeader) (d : List Nat)
    (sb : List SACKBlock) :
    verify_checksum1 ⟨hd, d, sb⟩ =
      ((65535 - foldCarry (headerSum1 hd +
        byteWeightSum (dataBytes ⟨hd, d, sb⟩) + sackSum sb)) == hd.checksum) := by
  unfold verify_checksum1 calculate_checksum1
  have e1 : headerSum1 (zeroCk ⟨hd, d, sb⟩).header = headerSum1 hd :=
    headerSum1_ck_irrel hd
  have e2 : dataBytes (zeroCk ⟨hd, d, sb⟩) = dataBytes ⟨hd, d, sb⟩ := rfl
  have e3 : (zeroCk ⟨hd, d, sb⟩).sack_blocks = sb := rfl
  rw [e1, e2, e3]

/-- The first-draft verification outcome of an exact-fit buffer, in terms of
the raw byte sums. -/
theorem verify1_of_bufSum (b : List Nat) (h20 : 20 ≤ b.length)
    (hfit : b.length = 20 + rd16 b 14 + 8 * rd32 b 16)
    (hb : ∀ x ∈ b, x < 256) :
    verify_checksum1 (deserialize b) =
      ((65535 - foldCarry (bufSum1 b)) == rd16 b 2) := by
  have hblt : ∀ j, byteAt b j < 256 := byteAt_lt_of_forall hb
  rw [deserialize_spec b h20 hfit]
  rw [verify1_components (parseHeader b) (slice b 20 (rd16 b 14))
    (parseSacks b (20 + rd16 b 14) (rd32 b 16))]
  have hstored : (parseHeader b).checksum = rd16 b 2 := rfl
  rw [hstored]
  refine congrArg (fun s => ((65535 - foldCarry s) == rd16 b 2)) ?_
  have hhdr1 : headerSum1 (parseHeader b) =
      byteWeightSum (slice b 0 2) + byteWeightSum (slice b 4 16) := by
    unfold headerSum1
    rw [headerBytes_parseHeader b hblt]
    have hr2 : List.range 2 = [0, 1] := by decide
    have hr16 : List.range 16 =
        [0, 1, 2, 3, 4, 5, 6, 7, 8, 9, 10, 11, 12, 13, 14, 15] := by decide
    simp only [slice, hr2, hr16, List.map_cons, List.map_nil]
    simp only [byteAt, List.getD_cons_zero, List.getD_cons_succ,
      List.drop_succ_cons, List.drop_zero, byteWeightSum]
    norm_num
  have hdata : byteWeightSum (dataBytes ⟨parseHeader b,
      slice b 20 (rd16 b 14), parseSacks b (20 + rd16 b 14) (rd32 b 16)⟩) =
      byteWeightSum (slice b 20 (rd16 b 14)) := by
    refine congrArg byteWeightSum ?_
    refine dataBytes_eq_data _ ?_
    rw [slice_length]
    rfl
  have hsack : sackSum (parseSacks b (20 + rd16 b 14) (rd32 b 16)) =
      byteWeightSum (slice b (20 + rd16 b 14) (8 * rd32 b 16)) :=
    sackSum_parseSacks b hblt (rd32 b 16) (20 + rd16 b 14) (by omega)
  unfold bufSum1
  rw [← hhdr1, ← hdata, ← hsack]

theorem headerBytes_lt (h : PacketHeader) : ∀ x ∈ headerBytes h, x < 256 := by
  intro x hx
  simp only [headerBytes, le16, le32, List.cons_append, List.nil_append,
    List.mem_cons, List.not_mem_nil, or_false] at hx
  rcases hx with rfl | rfl | rfl | rfl | rfl | rfl | rfl | rfl | rfl | rfl |
    rfl | rfl | rfl | rfl | rfl | rfl | rfl | rfl | rfl | rfl <;>
    exact Nat.mod_lt _ (by norm_num)

theorem serialize_bytes_lt (p : Packet) (hdata : ∀ x ∈ p.data, x < 256) :
    ∀ x ∈ serialize p, x < 256 := by
  intro x hx
  simp only [serialize, List.mem_append] at hx
  rcases hx with (hx | hx) | hx
  · exact headerBytes_lt p.header x hx
  · simp only [dataBytes, List.mem_map] at hx
    obtain ⟨i, _, rfl⟩ := hx
    exact byteAt_lt_of_forall hdata i
  · rw [List.mem_flatten] at hx
    obtain ⟨l, hl, hxl⟩ := hx
    rw [List.mem_map] at hl
    obtain ⟨s, _, rfl⟩ := hl
    simp only [sackBytes, le32, List.mem_append, List.mem_cons,
      List.not_mem_nil, or_false] at hxl
    rcases hxl with (rfl | rfl | rfl | rfl) | (rfl | rfl | rfl | rfl) <;>
      exact Nat.mod_lt _ (by norm_num)

theorem parseHeader_serialize (q : Packet) (hwf : WellFormed q) :
    parseHeader (serialize q) = q.header := by
  obtain ⟨h1, h2, h3, h4, h5, h6, h7, h8, h9, h10, h11, h12⟩ := hwf
  have hser : serialize q = headerBytes q.header ++
      (dataBytes q ++ (q.sack_blocks.map sackBytes).flatten) := by
    simp [serialize]
  rw [hser]
  refine parseHeader_of_headerBytes q.header _ h1 h2 h3 h4 h5 h6 ?_ ?_
  · rw [h7]; unfold MAX_DATA_SIZE at h8; omega
  · rw [h9]; omega

/-- Flipping one byte inside one of the summed regions shifts that region's
word sum by the byte's big-endian weight. -/
theorem bufRegion_flip (b : List Nat) (off n t : Nat) (v : Nat)
    (h1 : off ≤ t) (h2 : t < off + n) (h3 : t < b.length) :
    byteWeightSum (slice (b.set t v) off n) + bw (t - off) * byteAt b t =
      byteWeightSum (slice b off n) + bw (t - off) * v := by
  rw [slice_set_inside v h1 h2 h3]
  have h := byteWeightSum_set (slice b off n) (t - off) v
    (by rw [slice_length]; omega)
  rw [slice_getD b off n (t - off) (by omega)] at h
  have e : off + (t - off) = t := by omega
  rw [e] at h
  exact h

set_option maxHeartbeats 1600000 in
/-- C8 (amended).  First-draft codec: flipping any single bit of a serialized
well-formed packet outside the checksum field (bytes 2–3) and outside the
structural `data_length`/`sack_count` fields (bytes 14–19, whose corruption
can change how the buffer is re-parsed) makes checksum verification of the
deserialized result fail. -/
theorem checksum_detects_nonstructural_flip (p : Packet) (hwf : WellFormed p)
    (t r : Nat) (htlen : t < (serialize (setChecksum1 p)).length) (hr : r < 8)
    (ht2 : t ≠ 2) (ht3 : t ≠ 3) (hts : ¬(14 ≤ t ∧ t < 20)) :
    verify_checksum1
      (deserialize (flipBitAt (serialize (setChecksum1 p)) t r)) = false := by
  have hwq : WellFormed (setChecksum1 p) := wellFormed_setChecksum1 p hwf
  have hwq' := hwq
  set q := setChecksum1 p with hq
  set b := serialize q with hbdef
  have hph : parseHeader b = q.header := parseHeader_serialize q hwq
  obtain ⟨h1, h2, h3, h4, h5, h6, h7, h8, h9, h10, h11, h12⟩ := hwq
  have hlen : b.length = 20 + q.header.data_length + 8 * q.sack_blocks.length :=
    serialize_length q
  have hdl14 : rd16 b 14 = q.header.data_length := by
    have e : (parseHeader b).data_length = rd16 b 14 := rfl
    rw [← e, hph]
  have hsc16 : rd32 b 16 = q.header.sack_count := by
    have e : (parseHeader b).sack_count = rd32 b 16 := rfl
    rw [← e, hph]
  have hfit : b.length = 20 + rd16 b 14 + 8 * rd32 b 16 := by
    rw [hdl14, hsc16, h9]
    exact hlen
  have h20b : 20 ≤ b.length := by omega
  have hbytes : ∀ x ∈ b, x < 256 := serialize_bytes_lt q h11
  have hblt := byteAt_lt_of_forall hbytes
  set v := flipByte (byteAt b t) r with hvdef
  set b2 := flipBitAt b t r with hb2def
  have hb2 : b2 = b.set t v := rfl
  have hlen2 : b2.length = b.length := by
    rw [hb2]
    exact List.length_set ..
  have h14 : rd16 b2 14 = rd16 b 14 := by
    rw [hb2]
    exact rd16_set_outside v (by omega) (by omega)
  have h16 : rd32 b2 16 = rd32 b 16 := by
    rw [hb2]
    exact rd32_set_outside v (by omega) (by omega) (by omega) (by omega)
  have hrd2 : rd16 b2 2 = rd16 b 2 := by
    rw [hb2]
    exact rd16_set_outside v (by omega) (by omega)
  have hfit2 : b2.length = 20 + rd16 b2 14 + 8 * rd32 b2 16 := by
    rw [hlen2, h14, h16]
    exact hfit
  have hbytes2 : ∀ x ∈ b2, x < 256 := by
    intro x hx
    rw [hb2] at hx
    rcases List.mem_or_eq_of_mem_set hx with hmem | rfl
    · exact hbytes x hmem
    · exact flipByte_lt (hblt t) hr
  rw [verify1_of_bufSum b2 (by omega) hfit2 hbytes2, hrd2]
  have hv1 : verify_checksum1 (deserialize b) = true := by
    rw [hbdef, deserialize_serialize q hwq', hq]
    exact verify1_setChecksum1 p
  rw [verify1_of_bufSum b h20b hfit hbytes] at hv1
  have hstored : 65535 - foldCarry (bufSum1 b) = rd16 b 2 := by
    simp only [beq_iff_eq] at hv1
    exact hv1
  have hbuf2 : bufSum1 b2 = byteWeightSum (slice b2 0 2) +
      byteWeightSum (slice b2 4 16) +
      byteWeightSum (slice b2 20 (rd16 b 14)) +
      byteWeightSum (slice b2 (20 + rd16 b 14) (8 * rd32 b 16)) := by
    unfold bufSum1
    rw [h14, h16]
  have htrange : t < 2 ∨ (4 ≤ t ∧ t < 14) ∨ (20 ≤ t ∧ t < b.length) := by
    omega
  have hdiff : ∃ w, (w = 256 ∨ w = 1) ∧
      bufSum1 b2 + w * byteAt b t = bufSum1 b + w * v := by
    rcases htrange with ht | ⟨ht4, ht14⟩ | ⟨ht20, htb⟩
    · have ho2 : slice b2 4 16 = slice b 4 16 := by
        rw [hb2]
        exact slice_set_outside v (by omega)
      have ho3 : slice b2 20 (rd16 b 14) = slice b 20 (rd16 b 14) := by
        rw [hb2]
        exact slice_set_outside v (by omega)
      have ho4 : slice b2 (20 + rd16 b 14) (8 * rd32 b 16) =
          slice b (20 + rd16 b 14) (8 * rd32 b 16) := by
        rw [hb2]
        exact slice_set_outside v (by omega)
      have hf := bufRegion_flip b 0 2 t v (by omega) (by omega) (by omega)
      rw [Nat.sub_zero] at hf
      refine ⟨bw t, bw_cases t, ?_⟩
      rw [hbuf2, ho2, ho3, ho4, hb2]
      unfold bufSum1
      omega
    · have ho1 : slice b2 0 2 = slice b 0 2 := by
        rw [hb2]
        exact slice_set_outside v (by omega)
      have ho3 : slice b2 20 (rd16 b 14) = slice b 20 (rd16 b 14) := by
        rw [hb2]
        exact slice_set_outside v (by omega)
      have ho4 : slice b2 (20 + rd16 b 14) (8 * rd32 b 16) =
          slice b (20 + rd16 b 14) (8 * rd32 b 16) := by
        rw [hb2]
        exact slice_set_outside v (by omega)
      have hf := bufRegion_flip b 4 16 t v (by omega) (by omega) (by omega)
      refine ⟨bw (t - 4), bw_cases (t - 4), ?_⟩
      rw [hbuf2, ho1, ho3, ho4, hb2]
      unfold bufSum1
      omega
    · by_cases hdata : t < 20 + rd16 b 14
      · have ho1 : slice b2 0 2 = slice b 0 2 := by
          rw [hb2]
          exact slice_set_outside v (by omega)
        have ho2 : slice b2 4 16 = slice b 4 16 := by
          rw [hb2]
          exact slice_set_outside v (by omega)
        have ho4 : slice b2 (20 + rd16 b 14) (8 * rd32 b 16) =
            slice b (20 + rd16 b 14) (8 * rd32 b 16) := by
          rw [hb2]
          exact slice_set_outside v (by omega)
        have hf := bufRegion_flip b 20 (rd16 b 14) t v (by omega) (by omega)
          (by omega)
        refine ⟨bw (t - 20), bw_cases (t - 20), ?_⟩
        rw [hbuf2, ho1, ho2, ho4, hb2]
        unfold bufSum1
        omega
      · have ho1 : slice b2 0 2 = slice b 0 2 := by
          rw [hb2]
          exact slice_set_outside v (by omega)
        have ho2 : slice b2 4 16 = slice b 4 16 := by
          rw [hb2]
          exact slice_set_outside v (by omega)
        have ho3 : slice b2 20 (rd16 b 14) = slice b 20 (rd16 b 14) := by
          rw [hb2]
          exact slice_set_outside v (by omega)
        have hf := bufRegion_flip b (20 + rd16 b 14) (8 * rd32 b 16) t v
          (by omega) (by omega) (by omega)
        refine ⟨bw (t - (20 + rd16 b 14)), bw_cases _, ?_⟩
        rw [hbuf2, ho1, ho2, ho3, hb2]
        unfold bufSum1
        omega
  obtain ⟨w, hw, hEq⟩ := hdiff
  have hpow1 : (1 : Nat) ≤ 2 ^ r := Nat.one_le_two_pow
  have hpow2 : (2 : Nat) ^ r ≤ 128 := by
    calc (2 : Nat) ^ r ≤ 2 ^ 7 := Nat.pow_le_pow_right (by norm_num) (by omega)
    _ = 128 := by norm_num
  rw [← hstored]
  refine beq_eq_false_iff_ne.mpr ?_
  intro hcontra
  have hl1 := foldCarry_lt (bufSum1 b)
  have hl2 := foldCarry_lt (bufSum1 b2)
  have hfold : foldCarry (bufSum1 b2) = foldCarry (bufSum1 b) := by omega
  have hm1 := foldCarry_mod (bufSum1 b)
  have hm2 := foldCarry_mod (bufSum1 b2)
  rcases flipByte_cases (a := byteAt b t) (r := r) with hc | ⟨hle, hc⟩ <;>
    rcases hw with rfl | rfl <;>
    rw [← hvdef] at hc <;>
    omega

/-- Concrete packet whose serialization admits an undetected single-bit flip
(in the `data_length` field, turning 8 into 0: the parse loses exactly the
payload words 0xF7FF plus the 0x0800 of the length field — one full 0xFFFF,
which the one's-complement fold absorbs). -/
def cPacket8 : Packet :=
  ⟨⟨3, 0, 0, 4294967295, 0, 0, 8, 0⟩, [247, 255, 0, 0, 0, 0, 0, 0], []⟩

/-- Counterexample to C8 as stated: a well-formed packet and a single bit
flip of its serialization outside the checksum field (byte 14, bit 3 — the
`data_length` field) after which checksum verification of the deserialized
result still succeeds. -/
theorem checksum_flip_counterexample :
    WellFormed cPacket8 ∧ (14 : Nat) ≠ 2 ∧ (14 : Nat) ≠ 3 ∧
    verify_checksum1 (deserialize
      (flipBitAt (serialize (setChecksum1 cPacket8)) 14 3)) = true := by
  decide

/-- Witness for amended C8 at a concrete packet and bit position (byte 5 of
`seq_num`, bit 0). -/
theorem checksum_detects_flip_witness :
    WellFormed wPacket ∧ 5 < (serialize (setChecksum1 wPacket)).length ∧
    verify_checksum1 (deserialize
      (flipBitAt (serialize (setChecksum1 wPacket)) 5 0)) = false :=
  ⟨by decide, by decide,
    checksum_detects_nonstructural_flip wPacket (by decide) 5 0 (by decide)
      (by decide) (by decide) (by decide) (by decide)⟩

/-! ## Receiver state machine (`receiver.cpp`) -/

/-- `ConnectionState` from protocol.h (second draft, with SYN_RECEIVED). -/
inductive ConnState
  | CLOSED
  | SYN_SENT
  | SYN_RECEIVED
  | ESTABLISHED
  | FIN_WAIT
  | CLOSE_WAIT
deriving DecidableEq, Repr

/-- Receiver state: connection state, peer lock, reassembly machinery, and
the sink (file) modelled as the list of byte chunks written plus an
open/closed flag.  Remote endpoints are abstract naturals. -/
structure RecvSt where
  state : ConnState
  client_locked : Bool
  client_addr : Nat
  expected_seq : Nat
  recv_buffer : List (Nat × Packet)
  received_seqs : Finset Nat
  writes : List (List Nat)
  sink_open : Bool
deriving DecidableEq

/-- Receiver construction: CLOSED, nothing locked, `expected_seq = 0`. -/
def initRecvSt : RecvSt :=
  ⟨ConnState.CLOSED, false, 0, 0, [], ∅, [], false⟩

/-- The SYN_ACK reply built by `handle_syn`. -/
def mkSynAck (syn : Packet) : Packet :=
  setChecksum2 ⟨{ PacketHeader.zero with
      ptype := SYN_ACK_T
      seq_num := 0
      ack_num := syn.header.seq_num + 1 }, [], []⟩

/-- The FIN_ACK reply built by `handle_fin`. -/
def mkFinAck (fin : Packet) : Packet :=
  setChecksum2 ⟨{ PacketHeader.zero with
      ptype := FIN_ACK_T
      ack_num := fin.header.seq_num + 1 }, [], []⟩

/-- The FILE_NAME_ACK reply built by `handle_file_name`. -/
def mkFileNameAck (pkt : Packet) : Packet :=
  setChecksum2 ⟨{ PacketHeader.zero with
      ptype := FILE_NAME_ACK_T
      ack_num := pkt.header.seq_num + 1 }, [], []⟩

/-- Coalesce an ascending list of sequence numbers into maximal runs
`[left, right)` — the scan inside `send_ack`. -/
def sackRunsGo (l r : Nat) : List Nat → List SACKBlock
  | [] => [⟨l, r⟩]
  | y :: t => if y = r then sackRunsGo l (r + 1) t else ⟨l, r⟩ :: sackRunsGo y (y + 1) t

def sackRuns : List Nat → List SACKBlock
  | [] => []
  | x :: rest => sackRunsGo x (x + 1) rest

/-- `send_ack`: cumulative `ack_num = expected_seq`, advertised window, and
up to three SACK blocks built from the received set above `expected_seq`. -/
def mkAck (st : RecvSt) : Packet :=
  let eligible := (st.received_seqs.sort (· ≤ ·)).filter
    (fun s => st.expected_seq < s)
  let blocks := (sackRuns eligible).take 3
  setChecksum2 ⟨{ PacketHeader.zero with
      ptype := ACK_T
      ack_num := st.expected_seq
      window_size := WINDOW_SIZE
      sack_count := blocks.length }, [], blocks⟩

/-- `handle_syn`: lock the first client, reply SYN_ACK(seq 0, ack seq+1),
set `expected_seq`, enter SYN_RECEIVED.  No state guard in the source. -/
def handle_syn (st : RecvSt) (src : Nat) (pkt : Packet) : RecvSt × List Packet :=
  let st1 := if ¬st.client_locked then
    { st with client_addr := src, client_locked := true } else st
  ({ st1 with
      expected_seq := pkt.header.seq_num + 1
      state := ConnState.SYN_RECEIVED }, [mkSynAck pkt])

/-- The SYN_ACK reply built by the second receiver draft's `handle_syn`
(src/unnamed/part_001): `ack_num = seq + 1`, checksum stored raw in the
first-draft discipline that draft pairs with, every other field zero. -/
def mkSynAck_v2 (syn : Packet) : Packet :=
  setChecksum1 ⟨{ PacketHeader.zero with
      ptype := SYN_ACK_T
      ack_num := syn.header.seq_num + 1 }, [], []⟩

/-- `Receiver::handle_syn` from the second receiver draft
(src/unnamed/part_001, lines 177-197): lock the peer if it was not locked,
reply SYN_ACK, set `expected_seq = seq + 1`, and set `state = ESTABLISHED`
directly — that draft's ConnectionState has no SYN_RECEIVED and there is no
third-handshake gate. -/
def handle_syn_v2 (st : RecvSt) (src : Nat) (pkt : Packet) :
    RecvSt × List Packet :=
  let st1 := if ¬st.client_locked then
    { st with client_addr := src, client_locked := true } else st
  ({ st1 with
      expected_seq := pkt.header.seq_num + 1
      state := ConnState.ESTABLISHED }, [mkSynAck_v2 pkt])

/-- `handle_ack_handshake`: only in SYN_RECEIVED, and only `ack_num == 1`
completes the handshake. -/
def handle_ack_handshake (st : RecvSt) (pkt : Packet) : RecvSt × List Packet :=
  if st.state = ConnState.SYN_RECEIVED then
    if pkt.header.ack_num = 1 then
      ({ st with state := ConnState.ESTABLISHED }, [])
    else (st, [])
  else (st, [])

/-- `handle_fin`: reply FIN_ACK, close the sink, go to CLOSED — whatever the
current state. -/
def handle_fin (st : RecvSt) (pkt : Packet) : RecvSt × List Packet :=
  ({ st with state := ConnState.CLOSED, sink_open := false }, [mkFinAck pkt])

/-- `handle_file_name`: in ESTABLISHED, open the sink and acknowledge (the
derived file name is console/file I/O, outside the core model). -/
def handle_file_name (st : RecvSt) (pkt : Packet) : RecvSt × List Packet :=
  if st.state ≠ ConnState.ESTABLISHED then (st, [])
  else ({ st with sink_open := true }, [mkFileNameAck pkt])

/-- The in-order drain loop of `handle_data`: while the expected sequence is
buffered, write its payload to the sink, drop it from the buffer, advance. -/
def drainBuf (st : RecvSt) : RecvSt :=
  match h : st.recv_buffer.find? (fun e => e.1 == st.expected_seq) with
  | none => st
  | some e => drainBuf { st with
      writes := st.writes ++ [dataBytes e.2]
      recv_buffer := st.recv_buffer.filter (fun x => x.1 != st.expected_seq)
      expected_seq := st.expected_seq + 1 }
termination_by st.recv_buffer.length
decreasing_by
  have hmem := List.mem_of_find?_eq_some h
  have hp := List.find?_some h
  refine List.length_filter_lt_length_iff_exists.2 ⟨e, hmem, ?_⟩
  simp only [bne, Bool.not_eq_true']
  simpa using hp

/-- `handle_data`: in ESTABLISHED only; deduplicate via `received_seqs`,
buffer, drain the in-order prefix, reply with a (SACK-carrying) ACK. -/
def handle_data (st : RecvSt) (pkt : Packet) : RecvSt × List Packet :=
  if st.state ≠ ConnState.ESTABLISHED then (st, [])
  else
    let seq := pkt.header.seq_num
    let st1 := if seq ∈ st.received_seqs then st
      else { st with
        recv_buffer := st.recv_buffer ++ [(seq, pkt)]
        received_seqs := insert seq st.received_seqs }
    let st2 := drainBuf st1
    (st2, [mkAck st2])

/-- `handle_packet`: dispatch on the type byte. -/
def handle_packet (st : RecvSt) (src : Nat) (pkt : Packet) :
    RecvSt × List Packet :=
  if pkt.header.ptype = SYN_T then handle_syn st src pkt
  else if pkt.header.ptype = ACK_T then handle_ack_handshake st pkt
  else if pkt.header.ptype = FILE_NAME_T then handle_file_name st pkt
  else if pkt.header.ptype = DATA_T then handle_data st pkt
  else if pkt.header.ptype = FIN_T then handle_fin st pkt
  else (st, [])

/-- One iteration of `Receiver::run` on an arriving datagram: source gate
(`receive_packet`), deserialize, checksum gate, dispatch. -/
def recvStepBuf (st : RecvSt) (src : Nat) (buf : List Nat) :
    RecvSt × List Packet :=
  if st.client_locked ∧ src ≠ st.client_addr then (st, [])
  else
    let pkt := deserialize buf
    if verify_checksum2 pkt then handle_packet st src pkt else (st, [])

/-- `Receiver::run`: consume datagrams until the state is CLOSED after a
handled packet; remaining datagrams are never read. -/
def runLoop (st : RecvSt) : List (Nat × List Nat) → RecvSt × List Packet
  | [] => (st, [])
  | (src, buf) :: rest =>
    if st.client_locked ∧ src ≠ st.client_addr then runLoop st rest
    else
      let pkt := deserialize buf
      if verify_checksum2 pkt then
        let (st1, outs) := handle_packet st src pkt
        if st1.state = ConnState.CLOSED then (st1, outs)
        else
          let (st2, outs2) := runLoop st1 rest
          (st2, outs ++ outs2)
      else runLoop st rest

/-! ## Receiver lemmas -/

theorem drainBuf_const (st : RecvSt) :
    (drainBuf st).state = st.state ∧
    (drainBuf st).client_locked = st.client_locked ∧
    (drainBuf st).client_addr = st.client_addr ∧
    (drainBuf st).sink_open = st.sink_open ∧
    (drainBuf st).received_seqs = st.received_seqs ∧
    st.expected_seq ≤ (drainBuf st).expected_seq := by
  induction st using drainBuf.induct with
  | case1 st hfind =>
    unfold drainBuf
    rw [hfind]
    exact ⟨rfl, rfl, rfl, rfl, rfl, le_refl _⟩
  | case2 st e hfind ih =>
    unfold drainBuf
    rw [hfind]
    obtain ⟨i1, i2, i3, i4, i5, i6⟩ := ih
    exact ⟨i1, i2, i3, i4, i5, by simp at i6 ⊢; omega⟩

/-- Invariant of the reassembly loop: the sink contents are exactly the
payloads of `e0, e0+1, …, expected_seq - 1` in order; every buffered packet
carries the payload of its own sequence. -/
def RInv (f : Nat → List Nat) (e0 : Nat) (st : RecvSt) : Prop :=
  st.state = ConnState.ESTABLISHED ∧ e0 ≤ st.expected_seq ∧
    st.writes = (List.range' e0 (st.expected_seq - e0)).map f ∧
    ∀ e ∈ st.recv_buffer, dataBytes e.2 = f e.1

theorem drainBuf_rinv (f : Nat → List Nat) (e0 : Nat) (st : RecvSt)
    (h : RInv f e0 st) : RInv f e0 (drainBuf st) := by
  induction st using drainBuf.induct with
  | case1 st hfind =>
    unfold drainBuf
    rw [hfind]
    exact h
  | case2 st e hfind ih =>
    unfold drainBuf
    rw [hfind]
    refine ih ?_
    obtain ⟨h1, h2, h3, h4⟩ := h
    have hmem := List.mem_of_find?_eq_some hfind
    have hp := List.find?_some hfind
    have hkey : e.1 = st.expected_seq := by simpa using hp
    have hpay : dataBytes e.2 = f st.expected_seq := by
      rw [h4 e hmem, hkey]
    refine ⟨h1, by simp; omega, ?_, ?_⟩
    · simp only
      rw [h3, hpay]
      have hext : st.expected_seq + 1 - e0 = (st.expected_seq - e0) + 1 := by
        omega
      rw [hext, List.range'_concat]
      have hend : e0 + 1 * (st.expected_seq - e0) = st.expected_seq := by
        omega
      rw [hend, List.map_append, List.map_cons, List.map_nil]
    · intro x hx
      simp only [List.mem_filter] at hx
      exact h4 x hx.1

/-- A DATA packet carrying payload `f s` for sequence `s`, checksummed the
way `send_file` builds it. -/
def mkDataPacket (f : Nat → List Nat) (s : Nat) : Packet :=
  setChecksum2 ⟨{ PacketHeader.zero with
      ptype := DATA_T
      seq_num := s
      data_length := (f s).length }, f s, []⟩

theorem dataBytes_mkDataPacket (f : Nat → List Nat) (s : Nat) :
    dataBytes (mkDataPacket f s) = f s := by
  refine dataBytes_eq_data _ ?_
  rfl

theorem mkDataPacket_seq (f : Nat → List Nat) (s : Nat) :
    (mkDataPacket f s).header.seq_num = s := rfl

theorem handle_data_rinv (f : Nat → List Nat) (e0 : Nat) (st : RecvSt)
    (pkt : Packet) (h : RInv f e0 st)
    (hpay : dataBytes pkt = f pkt.header.seq_num) :
    RInv f e0 (handle_data st pkt).1 := by
  unfold handle_data
  rw [if_neg (by rw [h.1]; simp)]
  simp only
  refine drainBuf_rinv f e0 _ ?_
  by_cases hdup : pkt.header.seq_num ∈ st.received_seqs
  · rw [if_pos hdup]
    exact h
  · rw [if_neg hdup]
    obtain ⟨h1, h2, h3, h4⟩ := h
    refine ⟨h1, h2, h3, ?_⟩
    intro x hx
    simp only [List.mem_append, List.mem_singleton] at hx
    rcases hx with hx | rfl
    · exact h4 x hx
    · exact hpay

/-- Fold `handle_data` over a list of arriving sequence numbers (arbitrary
order, duplicates allowed), each carrying the payload `f seq`. -/
def processData (f : Nat → List Nat) (st : RecvSt) (seqs : List Nat) : RecvSt :=
  seqs.foldl (fun s q => (handle_data s (mkDataPacket f q)).1) st

/-- The receiver state right after the connection is established with
`expected_seq = e0` and the sink open. -/
def establishedSt (e0 : Nat) : RecvSt :=
  ⟨ConnState.ESTABLISHED, true, 0, e0, [], ∅, [], true⟩

theorem processData_rinv (f : Nat → List Nat) (e0 : Nat) :
    ∀ (seqs : List Nat) (st : RecvSt), RInv f e0 st →
      RInv f e0 (processData f st seqs) := by
  intro seqs
  induction seqs with
  | nil => intro st h; exact h
  | cons s rest ih =>
    intro st h
    have hstep := handle_data_rinv f e0 st (mkDataPacket f s) h
      (by rw [dataBytes_mkDataPacket, mkDataPacket_seq])
    exact ih _ hstep

/-- C2.  Monotone delivery with duplicate suppression: for any payload
assignment `f`, initial expected sequence `e0` and any arrival order with
arbitrary duplicates, the receiver's sink contents are exactly the payloads
of the consecutive sequences `e0, e0+1, …` up to the final `expected_seq`,
each written once, in increasing order with no gaps. -/
theorem monotone_delivery (f : Nat → List Nat) (e0 : Nat) (seqs : List Nat) :
    (processData f (establishedSt e0) seqs).writes =
      (List.range' e0
        ((processData f (establishedSt e0) seqs).expected_seq - e0)).map f ∧
    e0 ≤ (processData f (establishedSt e0) seqs).expected_seq := by
  have h0 : RInv f e0 (establishedSt e0) := by
    refine ⟨rfl, le_refl _, ?_, ?_⟩
    · simp [establishedSt]
    · intro x hx
      simp [establishedSt] at hx
  have h := processData_rinv f e0 seqs (establishedSt e0) h0
  exact ⟨h.2.2.1, h.2.1⟩

theorem handle_data_state (st : RecvSt) (pkt : Packet) :
    (handle_data st pkt).1.state = st.state := by
  unfold handle_data
  by_cases hst : st.state ≠ ConnState.ESTABLISHED
  · rw [if_pos hst]
  · rw [if_neg hst]
    simp only
    by_cases hdup : pkt.header.seq_num ∈ st.received_seqs
    · rw [if_pos hdup]
      exact (drainBuf_const st).1
    · rw [if_neg hdup]
      exact (drainBuf_const _).1

/-- C6.  Receiver handshake, evaluated on both receiver drafts.  Polished
receiver.cpp draft: (a) a SYN always elicits a SYN_ACK with `seq_num = 0`
and `ack_num = syn.seq_num + 1`, locks the peer if it was not locked, sets
`expected_seq = syn.seq_num + 1` and enters SYN_RECEIVED; (b) the only way
any dispatched packet can leave the receiver in ESTABLISHED is that it
already was ESTABLISHED, or it was in SYN_RECEIVED and the packet is an ACK
with `ack_num == 1`; (c) in SYN_RECEIVED, an ACK with any other `ack_num`
changes nothing.  Second draft (src/unnamed/part_001): (d) `handle_syn`
sets `state = ESTABLISHED` directly on any SYN, from any state, with no
SYN_RECEIVED step and no third-handshake ACK — contradicting the claim,
which only the polished draft satisfies. -/
theorem receiver_handshake :
    (∀ (st : RecvSt) (src : Nat) (syn : Packet), syn.header.ptype = SYN_T →
      (handle_packet st src syn).2 = [mkSynAck syn] ∧
      (mkSynAck syn).header.ptype = SYN_ACK_T ∧
      (mkSynAck syn).header.seq_num = 0 ∧
      (mkSynAck syn).header.ack_num = syn.header.seq_num + 1 ∧
      (handle_packet st src syn).1.expected_seq = syn.header.seq_num + 1 ∧
      (handle_packet st src syn).1.state = ConnState.SYN_RECEIVED ∧
      (handle_packet st src syn).1.client_locked = true ∧
      (st.client_locked = false →
        (handle_packet st src syn).1.client_addr = src)) ∧
    (∀ (st : RecvSt) (src : Nat) (pkt : Packet),
      (handle_packet st src pkt).1.state = ConnState.ESTABLISHED →
      st.state = ConnState.ESTABLISHED ∨
        (st.state = ConnState.SYN_RECEIVED ∧ pkt.header.ptype = ACK_T ∧
          pkt.header.ack_num = 1)) ∧
    (∀ (st : RecvSt) (src : Nat) (pkt : Packet),
      st.state = ConnState.SYN_RECEIVED → pkt.header.ptype = ACK_T →
      pkt.header.ack_num ≠ 1 → (handle_packet st src pkt).1 = st) ∧
    (∀ (st : RecvSt) (src : Nat) (syn : Packet),
      (handle_syn_v2 st src syn).1.state = ConnState.ESTABLISHED ∧
      (handle_syn_v2 st src syn).1.expected_seq = syn.header.seq_num + 1 ∧
      (handle_syn_v2 st src syn).2 = [mkSynAck_v2 syn] ∧
      (mkSynAck_v2 syn).header.ptype = SYN_ACK_T ∧
      (mkSynAck_v2 syn).header.ack_num = syn.header.seq_num + 1 ∧
      (handle_syn_v2 st src syn).1.client_locked = true ∧
      (st.client_locked = false →
        (handle_syn_v2 st src syn).1.client_addr = src)) := by
  refine ⟨?_, ?_, ?_, ?_⟩
  · intro st src syn hsyn
    unfold handle_packet
    rw [if_pos hsyn]
    unfold handle_syn
    by_cases hcl : st.client_locked
    · simp only [hcl]
      refine ⟨by simp, rfl, rfl, rfl, by simp, by simp, by simp [hcl], ?_⟩
      intro hfalse
      exact Bool.noConfusion hfalse
    · simp only [hcl]
      refine ⟨by simp [hcl], rfl, rfl, rfl, by simp, by simp, by simp [hcl], ?_⟩
      intro _
      simp [hcl]
  · intro st src pkt
    unfold handle_packet
    by_cases h1 : pkt.header.ptype = SYN_T
    · rw [if_pos h1]
      intro hcontra
      unfold handle_syn at hcontra
      simp at hcontra
    · rw [if_neg h1]
      by_cases h2 : pkt.header.ptype = ACK_T
      · rw [if_pos h2]
        unfold handle_ack_handshake
        by_cases hsr : st.state = ConnState.SYN_RECEIVED
        · rw [if_pos hsr]
          by_cases hack : pkt.header.ack_num = 1
          · rw [if_pos hack]
            intro _
            exact Or.inr ⟨hsr, h2, hack⟩
          · rw [if_neg hack]
            intro hcontra
            simp only at hcontra
            rw [hsr] at hcontra
            exact absurd hcontra (by simp)
        · rw [if_neg hsr]
          intro hcontra
          exact Or.inl hcontra
      · rw [if_neg h2]
        by_cases h3 : pkt.header.ptype = FILE_NAME_T
        · rw [if_pos h3]
          unfold handle_file_name
          by_cases hst : st.state ≠ ConnState.ESTABLISHED
          · rw [if_pos hst]
            intro hcontra
            exact absurd hcontra hst
          · rw [if_neg hst]
            intro _
            push_neg at hst
            exact Or.inl hst
        · rw [if_neg h3]
          by_cases h4 : pkt.header.ptype = DATA_T
          · rw [if_pos h4]
            intro hcontra
            rw [handle_data_state] at hcontra
            exact Or.inl hcontra
          · rw [if_neg h4]
            by_cases h5 : pkt.header.ptype = FIN_T
            · rw [if_pos h5]
              unfold handle_fin
              intro hcontra
              simp at hcontra
            · rw [if_neg h5]
              intro hcontra
              exact Or.inl hcontra
  · intro st src pkt hsr hack hne
    unfold handle_packet
    rw [if_neg (by rw [hack]; decide), if_pos hack]
    unfold handle_ack_handshake
    rw [if_pos hsr, if_neg hne]
  · intro st src syn
    unfold handle_syn_v2
    by_cases hcl : st.client_locked
    · simp only [hcl]
      refine ⟨by simp, by simp, by simp, rfl, rfl, by simp [hcl], ?_⟩
      intro hfalse
      exact Bool.noConfusion hfalse
    · simp only [hcl]
      refine ⟨by simp, by simp, by simp [hcl], rfl, rfl, by simp [hcl], ?_⟩
      intro _
      simp [hcl]

/-- A concrete checksum-valid SYN packet. -/
def synPkt : Packet :=
  setChecksum2 ⟨{ PacketHeader.zero with
      ptype := SYN_T
      seq_num := 5 }, [], []⟩

/-- Witness for C6 at a concrete SYN and a concrete state, exercising both
drafts: the polished draft answers the SYN in SYN_RECEIVED, the second
draft is already ESTABLISHED after the very same SYN. -/
theorem receiver_handshake_witness :
    (synPkt.header.ptype = SYN_T ∧
      ((handle_packet initRecvSt 3 synPkt).2 = [mkSynAck synPkt] ∧
        (mkSynAck synPkt).header.ptype = SYN_ACK_T ∧
        (mkSynAck synPkt).header.seq_num = 0 ∧
        (mkSynAck synPkt).header.ack_num = synPkt.header.seq_num + 1 ∧
        (handle_packet initRecvSt 3 synPkt).1.expected_seq =
          synPkt.header.seq_num + 1 ∧
        (handle_packet initRecvSt 3 synPkt).1.state =
          ConnState.SYN_RECEIVED ∧
        (handle_packet initRecvSt 3 synPkt).1.client_locked = true ∧
        (initRecvSt.client_locked = false →
          (handle_packet initRecvSt 3 synPkt).1.client_addr = 3))) ∧
    ((handle_packet (handle_packet initRecvSt 3 synPkt).1 3
        (mkAck (establishedSt 9))).1.state = ConnState.ESTABLISHED →
      (handle_packet initRecvSt 3 synPkt).1.state = ConnState.ESTABLISHED ∨
        ((handle_packet initRecvSt 3 synPkt).1.state =
            ConnState.SYN_RECEIVED ∧
          (mkAck (establishedSt 9)).header.ptype = ACK_T ∧
          (mkAck (establishedSt 9)).header.ack_num = 1)) ∧
    ((handle_syn_v2 initRecvSt 3 synPkt).1.state = ConnState.ESTABLISHED ∧
      (handle_syn_v2 initRecvSt 3 synPkt).1.expected_seq =
        synPkt.header.seq_num + 1 ∧
      (handle_syn_v2 initRecvSt 3 synPkt).2 = [mkSynAck_v2 synPkt] ∧
      (mkSynAck_v2 synPkt).header.ptype = SYN_ACK_T ∧
      (mkSynAck_v2 synPkt).header.ack_num = synPkt.header.seq_num + 1 ∧
      (handle_syn_v2 initRecvSt 3 synPkt).1.client_locked = true ∧
      (initRecvSt.client_locked = false →
        (handle_syn_v2 initRecvSt 3 synPkt).1.client_addr = 3)) :=
  ⟨⟨by decide, receiver_handshake.1 initRecvSt 3 synPkt (by decide)⟩,
    receiver_handshake.2.1 _ 3 _,
    receiver_handshake.2.2.2 initRecvSt 3 synPkt⟩

/-- C9.  A checksum-valid FIN accepted by the source gate — in any receiver
state whatsoever, even CLOSED or SYN_RECEIVED — makes the receiver reply
FIN_ACK with `ack_num = fin.seq_num + 1`, close the sink, enter CLOSED, and
stop the main loop without reading any further datagram. -/
theorem fin_closes_any_state (st : RecvSt) (src : Nat) (buf : List Nat)
    (rest : List (Nat × List Nat))
    (hgate : ¬(st.client_locked = true ∧ src ≠ st.client_addr))
    (hfin : (deserialize buf).header.ptype = FIN_T)
    (hver : verify_checksum2 (deserialize buf) = true) :
    runLoop st ((src, buf) :: rest) =
      ({ st with state := ConnState.CLOSED, sink_open := false },
        [mkFinAck (deserialize buf)]) ∧
    (mkFinAck (deserialize buf)).header.ptype = FIN_ACK_T ∧
    (mkFinAck (deserialize buf)).header.ack_num =
      (deserialize buf).header.seq_num + 1 := by
  refine ⟨?_, rfl, rfl⟩
  unfold runLoop
  rw [if_neg hgate]
  simp only [hver, if_true]
  have hdisp : handle_packet st src (deserialize buf) =
      handle_fin st (deserialize buf) := by
    unfold handle_packet
    rw [if_neg (by rw [hfin]; decide), if_neg (by rw [hfin]; decide),
      if_neg (by rw [hfin]; decide), if_neg (by rw [hfin]; decide),
      if_pos hfin]
  rw [hdisp]
  unfold handle_fin
  simp

/-- A concrete checksum-valid FIN packet. -/
def finPkt : Packet :=
  setChecksum2 ⟨{ PacketHeader.zero with
      ptype := FIN_T
      seq_num := 7 }, [], []⟩

/-- Witness for C9: a FIN arriving as the very first datagram at a
fresh (CLOSED, unlocked) receiver, with further datagrams queued behind it. -/
theorem fin_closes_any_state_witness :
    runLoop initRecvSt ((4, serialize finPkt) :: [(9, [1, 2, 3])]) =
      ({ initRecvSt with state := ConnState.CLOSED, sink_open := false },
        [mkFinAck (deserialize (serialize finPkt))]) ∧
    (mkFinAck (deserialize (serialize finPkt))).header.ptype = FIN_ACK_T ∧
    (mkFinAck (deserialize (serialize finPkt))).header.ack_num =
      (deserialize (serialize finPkt)).header.seq_num + 1 :=
  fin_closes_any_state initRecvSt 4 (serialize finPkt) [(9, [1, 2, 3])]
    (by decide) (by decide) (by decide)

/-- C7 (amended).  Truncated-buffer handling: a buffer shorter than the
header parses to the zero packet, which fails verification under both
drafts; whatever the buffer, the parsed payload and SACK blocks lie inside
it (no out-of-bounds read); and any datagram whose packet fails checksum
verification is dropped by the receive loop with no reply and no state
change.  (The claim's stronger assertion that every truncated buffer fails
verification is refuted by `truncation_verify_counterexample`.) -/
theorem truncation_handling (b : List Nat) (st : RecvSt) (src : Nat)
    (hgate : ¬(st.client_locked = true ∧ src ≠ st.client_addr)) :
    (b.length < HEADER_SIZE → deserialize b = Packet.zero ∧
      verify_checksum2 (deserialize b) = false ∧
      verify_checksum1 (deserialize b) = false) ∧
    (HEADER_SIZE + (deserialize b).data.length +
      8 * (deserialize b).sack_blocks.length ≤ max b.length HEADER_SIZE) ∧
    (verify_checksum2 (deserialize b) = false →
      recvStepBuf st src b = (st, [])) := by
  refine ⟨?_, deserialize_fits b, ?_⟩
  · intro hshort
    have hz : deserialize b = Packet.zero := by
      unfold deserialize
      rw [if_pos hshort]
    refine ⟨hz, ?_, ?_⟩ <;> rw [hz] <;> decide
  · intro hver
    unfold recvStepBuf
    rw [if_neg hgate]
    simp only [hver]
    rfl

/-- Witness for C7 at a two-byte buffer and a fresh receiver. -/
theorem truncation_handling_witness :
    (([9, 9] : List Nat).length < HEADER_SIZE →
      deserialize [9, 9] = Packet.zero ∧
      verify_checksum2 (deserialize [9, 9]) = false ∧
      verify_checksum1 (deserialize [9, 9]) = false) ∧
    (HEADER_SIZE + (deserialize [9, 9]).data.length +
      8 * (deserialize [9, 9]).sack_blocks.length ≤
        max ([9, 9] : List Nat).length HEADER_SIZE) ∧
    (verify_checksum2 (deserialize [9, 9]) = false →
      recvStepBuf initRecvSt 4 [9, 9] = (initRecvSt, [])) :=
  truncation_handling [9, 9] initRecvSt 4 (by decide)

/-- Concrete DATA packet whose truncation still verifies (its two payload
bytes are zero, so removing them does not change the one's-complement sum
while re-parsing just leaves the zero-filled payload array in place). -/
def cPacket7 : Packet := ⟨⟨3, 0, 0, 5, 0, 0, 2, 0⟩, [0, 0], []⟩

/-- Counterexample to C7 as stated: a well-formed packet whose serialization
truncated to the bare header (so the buffer cannot satisfy the declared
`data_length`) still passes checksum verification — so the caller does NOT
drop it. -/
theorem truncation_verify_counterexample :
    WellFormed cPacket7 ∧
    ((serialize (setChecksum2 cPacket7)).take 20).length <
      HEADER_SIZE + (deserialize
        ((serialize (setChecksum2 cPacket7)).take 20)).header.data_length ∧
    verify_checksum2 (deserialize
      ((serialize (setChecksum2 cPacket7)).take 20)) = true := by
  decide

/-! ## Sender state machine (`sender.cpp`) -/

/-- `CongestionState` from protocol.h. -/
inductive CongState
  | SLOW_START
  | CONGESTION_AVOIDANCE
  | FAST_RECOVERY
deriving DecidableEq, Repr

/-- Sender state during `send_file`.  `seq0` is the first data sequence
(`seq_num` after the handshake) and `total` the chunk count, both fixed for
the transfer.  `in_flight` and `send_times` are the key sets of
`sent_packets` and `send_times` (timestamps are abstracted into the
nondeterministic choice of which entries have expired, see
`check_timeout`).  The `double cwnd` is modelled exactly as a rational. -/
structure SenderSt where
  seq0 : Nat
  total : Nat
  base : Nat
  next_seq_num : Nat
  in_flight : Finset Nat
  send_times : Finset Nat
  cong_state : CongState
  cwnd : ℚ
  ssthresh : Nat
  duplicate_acks : Nat
  last_acked : Nat
deriving DecidableEq

/-- Sender state at the start of `send_file`: `base = next_seq_num = seq0`,
slow start with `cwnd = 1.0` and `ssthresh = WINDOW_SIZE`. -/
def initSenderSt (seq0 total : Nat) : SenderSt :=
  ⟨seq0, total, seq0, seq0, ∅, ∅, CongState.SLOW_START, 1, WINDOW_SIZE, 0, 0⟩

/-- `static_cast<uint32_t>` of a non-negative `double` (truncation; for the
non-negative values arising here this is the floor `num / den`). -/
def ratFloorNat (q : ℚ) : Nat :=
  q.num.toNat / q.den

/-- `window_limit = min(uint32(cwnd), WINDOW_SIZE)` from `send_file`. -/
def windowLimit (s : SenderSt) : Nat :=
  min (ratFloorNat s.cwnd) WINDOW_SIZE

/-- One iteration of the fill-window loop of `send_file`: if the window and
the file still allow it, transmit the packet with sequence `next_seq_num`
(recording it in `sent_packets` and `send_times`) and advance.  The emitted
pair carries the sequence number and whether it was a retransmission. -/
def fillStep (s : SenderSt) : SenderSt × List (Nat × Bool) :=
  if s.next_seq_num < s.base + windowLimit s ∧
      s.next_seq_num < s.seq0 + s.total then
    ({ s with
        in_flight := insert s.next_seq_num s.in_flight
        send_times := insert s.next_seq_num s.send_times
        next_seq_num := s.next_seq_num + 1 }, [(s.next_seq_num, false)])
  else (s, [])

/-- The congestion update taken on a new cumulative ACK. -/
def congOnNewAck (s : SenderSt) : SenderSt :=
  match s.cong_state with
  | CongState.SLOW_START =>
    if s.cwnd + 1 ≥ (s.ssthresh : ℚ) then
      { s with cwnd := s.cwnd + 1, cong_state := CongState.CONGESTION_AVOIDANCE }
    else
      { s with cwnd := s.cwnd + 1 }
  | CongState.CONGESTION_AVOIDANCE => { s with cwnd := s.cwnd + 1 / s.cwnd }
  | CongState.FAST_RECOVERY =>
    { s with cwnd := (s.ssthresh : ℚ), cong_state := CongState.CONGESTION_AVOIDANCE }

/-- The SACK loop at the end of `handle_ack`: for every block `[l, r)`,
erase the covered sequences from `sent_packets` and `send_times`. -/
def sackPrune (s : SenderSt) (blocks : List SACKBlock) : SenderSt :=
  blocks.foldl (fun st sb =>
    { st with
        in_flight := st.in_flight.filter
          (fun k => ¬(sb.left_edge ≤ k ∧ k < sb.right_edge))
        send_times := st.send_times.filter
          (fun k => ¬(sb.left_edge ≤ k ∧ k < sb.right_edge)) }) s

/-- The cumulative/duplicate part of `Sender::handle_ack`, first draft of
sender.cpp: fast retransmit fires when `duplicate_acks == 2`, inflation on
`> 2` in fast recovery. -/
def handle_ack_core (s : SenderSt) (a : Nat) : SenderSt × List (Nat × Bool) :=
  if a > s.base then
    let sA := congOnNewAck { s with base := a, duplicate_acks := 0 }
    ({ sA with
        in_flight := sA.in_flight.filter (fun k => ¬(k < a))
        send_times := sA.send_times.filter (fun k => ¬(k < a))
        last_acked := a }, [])
  else if a = s.last_acked then
    let d := s.duplicate_acks + 1
    if d = 2 then
      if a ∈ s.in_flight then
        let th := max (ratFloorNat (s.cwnd / 2)) 2
        ({ s with
            duplicate_acks := d
            ssthresh := th
            cwnd := (th : ℚ) + 3
            cong_state := CongState.FAST_RECOVERY }, [(a, true)])
      else ({ s with duplicate_acks := d }, [])
    else if d > 2 ∧ s.cong_state = CongState.FAST_RECOVERY then
      ({ s with duplicate_acks := d, cwnd := s.cwnd + 1 }, [])
    else ({ s with duplicate_acks := d }, [])
  else (s, [])

/-- `Sender::handle_ack` (first draft): cumulative/duplicate processing,
then the SACK pruning loop. -/
def handle_ack (s : SenderSt) (pkt : Packet) : SenderSt × List (Nat × Bool) :=
  ((sackPrune (handle_ack_core s pkt.header.ack_num).1 pkt.sack_blocks),
    (handle_ack_core s pkt.header.ack_num).2)

/-- The cumulative/duplicate part of the second-draft `handle_ack`: fires at
`duplicate_acks == 3`, inflation on `> 3`. -/
def handle_ack_core_v2 (s : SenderSt) (a : Nat) :
    SenderSt × List (Nat × Bool) :=
  if a > s.base then
    let sA := congOnNewAck { s with base := a, duplicate_acks := 0 }
    ({ sA with
        in_flight := sA.in_flight.filter (fun k => ¬(k < a))
        send_times := sA.send_times.filter (fun k => ¬(k < a))
        last_acked := a }, [])
  else if a = s.last_acked then
    let d := s.duplicate_acks + 1
    if d = 3 then
      if a ∈ s.in_flight then
        let th := max (ratFloorNat (s.cwnd / 2)) 2
        ({ s with
            duplicate_acks := d
            ssthresh := th
            cwnd := (th : ℚ) + 3
            cong_state := CongState.FAST_RECOVERY }, [(a, true)])
      else ({ s with duplicate_acks := d }, [])
    else if d > 3 ∧ s.cong_state = CongState.FAST_RECOVERY then
      ({ s with duplicate_acks := d, cwnd := s.cwnd + 1 }, [])
    else ({ s with duplicate_acks := d }, [])
  else (s, [])

/-- `Sender::handle_ack` (second draft). -/
def handle_ack_v2 (s : SenderSt) (pkt : Packet) :
    SenderSt × List (Nat × Bool) :=
  ((sackPrune (handle_ack_core_v2 s pkt.header.ack_num).1 pkt.sack_blocks),
    (handle_ack_core_v2 s pkt.header.ack_num).2)

/-- Body of the `check_timeout` scan for one expired entry: if the sequence
is still tracked, retransmit it and fall back to slow start. -/
def timeoutBody (acc : SenderSt × List (Nat × Bool)) (e : Nat) :
    SenderSt × List (Nat × Bool) :=
  if e ∈ acc.1.send_times ∧ e ∈ acc.1.in_flight then
    ({ acc.1 with
        ssthresh := max (ratFloorNat (acc.1.cwnd / 2)) 2
        cwnd := 1
        cong_state := CongState.SLOW_START
        duplicate_acks := 0 }, acc.2 ++ [(e, true)])
  else acc

/-- `Sender::check_timeout`, with the (externally determined) set of
entries whose timestamps have exceeded TIMEOUT_MS. -/
def check_timeout (s : SenderSt) (expired : List Nat) :
    SenderSt × List (Nat × Bool) :=
  expired.foldl timeoutBody (s, [])

/-- The events the `send_file` loop reacts to: one fill-loop iteration, one
received datagram (handled only if it is a checksum-valid ACK), one timeout
scan. -/
inductive SendEv
  | fill
  | ack (pkt : Packet)
  | timeout (expired : List Nat)

/-- One loop iteration effect (first-draft ACK handler). -/
def senderStep (s : SenderSt) : SendEv → SenderSt × List (Nat × Bool)
  | SendEv.fill => fillStep s
  | SendEv.ack pkt =>
    if pkt.header.ptype = ACK_T ∧ verify_checksum2 pkt = true then
      handle_ack s pkt
    else (s, [])
  | SendEv.timeout expired => check_timeout s expired

/-- Run a sequence of events, accumulating all transmissions. -/
def runSender (s : SenderSt) : List SendEv → SenderSt × List (Nat × Bool)
  | [] => (s, [])
  | e :: rest =>
    let r1 := senderStep s e
    let r2 := runSender r1.1 rest
    (r2.1, r1.2 ++ r2.2)

/-- Reachable sender states during a transfer: any interleaving of fill
iterations, checksum-valid ACKs whose cumulative number does not exceed
what has been sent (the receiver never acknowledges unsent data), and
timeout scans over distinct expired entries. -/
inductive Reachable : SenderSt → Prop
  | init (seq0 total : Nat) : Reachable (initSenderSt seq0 total)
  | fill {s : SenderSt} : Reachable s → Reachable (fillStep s).1
  | ack {s : SenderSt} (pkt : Packet) : Reachable s →
      pkt.header.ptype = ACK_T → verify_checksum2 pkt = true →
      pkt.header.ack_num ≤ s.next_seq_num → Reachable (handle_ack s pkt).1
  | timeout {s : SenderSt} (expired : List Nat) : Reachable s →
      expired.Nodup → Reachable (check_timeout s expired).1

/-! ## Sender lemmas -/

theorem congOnNewAck_fields (s : SenderSt) :
    (congOnNewAck s).base = s.base ∧
    (congOnNewAck s).next_seq_num = s.next_seq_num ∧
    (congOnNewAck s).in_flight = s.in_flight ∧
    (congOnNewAck s).send_times = s.send_times ∧
    (congOnNewAck s).seq0 = s.seq0 ∧
    (congOnNewAck s).total = s.total ∧
    (congOnNewAck s).last_acked = s.last_acked := by
  unfold congOnNewAck
  rcases hc : s.cong_state <;> simp only [hc] <;>
    first
    | exact ⟨rfl, rfl, rfl, rfl, rfl, rfl, rfl⟩
    | (split <;> exact ⟨rfl, rfl, rfl, rfl, rfl, rfl, rfl⟩)
    | simp

theorem sackPrune_fields (blocks : List SACKBlock) :
    ∀ s : SenderSt, (sackPrune s blocks).base = s.base ∧
      (sackPrune s blocks).next_seq_num = s.next_seq_num ∧
      (sackPrune s blocks).seq0 = s.seq0 ∧
      (sackPrune s blocks).total = s.total ∧
      (sackPrune s blocks).last_acked = s.last_acked ∧
      (sackPrune s blocks).duplicate_acks = s.duplicate_acks ∧
      (sackPrune s blocks).cwnd = s.cwnd ∧
      (sackPrune s blocks).ssthresh = s.ssthresh ∧
      (sackPrune s blocks).cong_state = s.cong_state := by
  induction blocks with
  | nil => intro s; exact ⟨rfl, rfl, rfl, rfl, rfl, rfl, rfl, rfl, rfl⟩
  | cons b bs ih =>
    intro s
    unfold sackPrune at *
    rw [List.foldl_cons]
    exact ih _

theorem sackPrune_subset (blocks : List SACKBlock) :
    ∀ s : SenderSt, (sackPrune s blocks).in_flight ⊆ s.in_flight ∧
      (sackPrune s blocks).send_times ⊆ s.send_times := by
  induction blocks with
  | nil => intro s; exact ⟨Finset.Subset.refl _, Finset.Subset.refl _⟩
  | cons b bs ih =>
    intro s
    unfold sackPrune at *
    rw [List.foldl_cons]
    refine ⟨(ih _).1.trans (Finset.filter_subset _ _),
      (ih _).2.trans (Finset.filter_subset _ _)⟩

theorem sackPrune_eq (blocks : List SACKBlock) :
    ∀ s : SenderSt, s.send_times = s.in_flight →
      (sackPrune s blocks).send_times = (sackPrune s blocks).in_flight := by
  induction blocks with
  | nil => intro s h; exact h
  | cons b bs ih =>
    intro s h
    unfold sackPrune at *
    rw [List.foldl_cons]
    refine ih _ ?_
    simp only [h]

theorem sackPrune_erases (blocks : List SACKBlock) :
    ∀ (s : SenderSt) (sb : SACKBlock), sb ∈ blocks →
      ∀ k, sb.left_edge ≤ k → k < sb.right_edge →
      k ∉ (sackPrune s blocks).in_flight ∧
        k ∉ (sackPrune s blocks).send_times := by
  induction blocks with
  | nil => intro s sb hsb; simp at hsb
  | cons b bs ih =>
    intro s sb hsb k hl hr
    unfold sackPrune at *
    rw [List.foldl_cons]
    rcases List.mem_cons.1 hsb with rfl | hmem
    · constructor
      · intro hk
        have := (sackPrune_subset bs _).1 hk
        simp only [Finset.mem_filter] at this
        exact this.2 ⟨hl, hr⟩
      · intro hk
        have := (sackPrune_subset bs _).2 hk
        simp only [Finset.mem_filter] at this
        exact this.2 ⟨hl, hr⟩
    · exact ih _ sb hmem k hl hr

theorem timeout_fold (expired : List Nat) :
    ∀ acc : SenderSt × List (Nat × Bool),
      (expired.foldl timeoutBody acc).1.in_flight = acc.1.in_flight ∧
      (expired.foldl timeoutBody acc).1.send_times = acc.1.send_times ∧
      (expired.foldl timeoutBody acc).1.base = acc.1.base ∧
      (expired.foldl timeoutBody acc).1.next_seq_num = acc.1.next_seq_num ∧
      (expired.foldl timeoutBody acc).1.seq0 = acc.1.seq0 ∧
      (expired.foldl timeoutBody acc).1.total = acc.1.total ∧
      (expired.foldl timeoutBody acc).1.last_acked = acc.1.last_acked ∧
      ∀ tx ∈ (expired.foldl timeoutBody acc).2,
        tx ∈ acc.2 ∨ (tx.1 ∈ acc.1.in_flight ∧ tx.2 = true) := by
  induction expired with
  | nil =>
    intro acc
    exact ⟨rfl, rfl, rfl, rfl, rfl, rfl, rfl, fun tx htx => Or.inl htx⟩
  | cons e es ih =>
    intro acc
    rw [List.foldl_cons]
    obtain ⟨i1, i2, i3, i4, i5, i6, i7, i8⟩ := ih (timeoutBody acc e)
    unfold timeoutBody at *
    by_cases hmem : e ∈ acc.1.send_times ∧ e ∈ acc.1.in_flight
    · rw [if_pos hmem] at i1 i2 i3 i4 i5 i6 i7 i8 ⊢
      refine ⟨i1, i2, i3, i4, i5, i6, i7, ?_⟩
      intro tx htx
      rcases i8 tx htx with hin | hnew
      · rcases List.mem_append.1 hin with hold | hone
        · exact Or.inl hold
        · simp only [List.mem_singleton] at hone
          subst hone
          exact Or.inr ⟨hmem.2, rfl⟩
      · exact Or.inr hnew
    · rw [if_neg hmem] at i1 i2 i3 i4 i5 i6 i7 i8 ⊢
      exact ⟨i1, i2, i3, i4, i5, i6, i7, i8⟩

theorem handle_ack_core_next (s : SenderSt) (a : Nat) :
    (handle_ack_core s a).1.next_seq_num = s.next_seq_num := by
  unfold handle_ack_core
  by_cases h1 : a > s.base
  · rw [if_pos h1]
    exact (congOnNewAck_fields _).2.1
  · rw [if_neg h1]
    by_cases h2 : a = s.last_acked
    · rw [if_pos h2]
      by_cases h3 : s.duplicate_acks + 1 = 2
      · rw [if_pos h3]
        by_cases h4 : a ∈ s.in_flight
        · rw [if_pos h4]
        · rw [if_neg h4]
      · rw [if_neg h3]
        by_cases h5 : s.duplicate_acks + 1 > 2 ∧
            s.cong_state = CongState.FAST_RECOVERY
        · rw [if_pos h5]
        · rw [if_neg h5]
    · rw [if_neg h2]

theorem handle_ack_core_subset (s : SenderSt) (a : Nat) :
    (handle_ack_core s a).1.in_flight ⊆ s.in_flight ∧
      (handle_ack_core s a).1.send_times ⊆ s.send_times := by
  unfold handle_ack_core
  by_cases h1 : a > s.base
  · rw [if_pos h1]
    simp only
    rw [(congOnNewAck_fields _).2.2.1, (congOnNewAck_fields _).2.2.2.1]
    exact ⟨Finset.filter_subset _ _, Finset.filter_subset _ _⟩
  · rw [if_neg h1]
    by_cases h2 : a = s.last_acked
    · rw [if_pos h2]
      by_cases h3 : s.duplicate_acks + 1 = 2
      · rw [if_pos h3]
        by_cases h4 : a ∈ s.in_flight
        · rw [if_pos h4]
          exact ⟨Finset.Subset.refl _, Finset.Subset.refl _⟩
        · rw [if_neg h4]
          exact ⟨Finset.Subset.refl _, Finset.Subset.refl _⟩
      · rw [if_neg h3]
        by_cases h5 : s.duplicate_acks + 1 > 2 ∧
            s.cong_state = CongState.FAST_RECOVERY
        · rw [if_pos h5]
          exact ⟨Finset.Subset.refl _, Finset.Subset.refl _⟩
        · rw [if_neg h5]
          exact ⟨Finset.Subset.refl _, Finset.Subset.refl _⟩
    · rw [if_neg h2]
      exact ⟨Finset.Subset.refl _, Finset.Subset.refl _⟩

theorem handle_ack_core_base (s : SenderSt) (a : Nat) :
    s.base ≤ (handle_ack_core s a).1.base := by
  unfold handle_ack_core
  by_cases h1 : a > s.base
  · rw [if_pos h1]
    simp only
    rw [(congOnNewAck_fields _).1]
    simp only
    omega
  · rw [if_neg h1]
    by_cases h2 : a = s.last_acked
    · rw [if_pos h2]
      by_cases h3 : s.duplicate_acks + 1 = 2
      · rw [if_pos h3]
        by_cases h4 : a ∈ s.in_flight
        · rw [if_pos h4]
        · rw [if_neg h4]
      · rw [if_neg h3]
        by_cases h5 : s.duplicate_acks + 1 > 2 ∧
            s.cong_state = CongState.FAST_RECOVERY
        · rw [if_pos h5]
        · rw [if_neg h5]
    · rw [if_neg h2]

theorem handle_ack_core_out (s : SenderSt) (a : Nat) :
    ∀ tx ∈ (handle_ack_core s a).2, tx.1 ∈ s.in_flight ∧ tx.2 = true := by
  unfold handle_ack_core
  by_cases h1 : a > s.base
  · rw [if_pos h1]
    intro tx htx
    simp at htx
  · rw [if_neg h1]
    by_cases h2 : a = s.last_acked
    · rw [if_pos h2]
      by_cases h3 : s.duplicate_acks + 1 = 2
      · rw [if_pos h3]
        by_cases h4 : a ∈ s.in_flight
        · rw [if_pos h4]
          intro tx htx
          simp only [List.mem_singleton] at htx
          subst htx
          exact ⟨h4, rfl⟩
        · rw [if_neg h4]
          intro tx htx
          simp at htx
      · rw [if_neg h3]
        by_cases h5 : s.duplicate_acks + 1 > 2 ∧
            s.cong_state = CongState.FAST_RECOVERY
        · rw [if_pos h5]
          intro tx htx
          simp at htx
        · rw [if_neg h5]
          intro tx htx
          simp at htx
    · rw [if_neg h2]
      intro tx htx
      simp at htx

/-- The inductive window invariant that actually holds. -/
def SenderInv (s : SenderSt) : Prop :=
  s.base ≤ s.next_seq_num ∧ s.next_seq_num ≤ s.base + WINDOW_SIZE ∧
    (∀ k ∈ s.in_flight, s.base ≤ k ∧ k < s.next_seq_num) ∧
    s.send_times = s.in_flight

theorem sackPrune_inv (s : SenderSt) (blocks : List SACKBlock)
    (h : SenderInv s) : SenderInv (sackPrune s blocks) := by
  obtain ⟨h1, h2, h3, h4⟩ := h
  obtain ⟨f1, f2, _⟩ := sackPrune_fields blocks s
  refine ⟨by rw [f1, f2]; exact h1, by rw [f1, f2]; exact h2, ?_, ?_⟩
  · intro k hk
    rw [f1, f2]
    exact h3 k ((sackPrune_subset blocks s).1 hk)
  · exact sackPrune_eq blocks s h4

theorem fillStep_inv (s : SenderSt) (h : SenderInv s) :
    SenderInv (fillStep s).1 := by
  obtain ⟨h1, h2, h3, h4⟩ := h
  unfold fillStep
  by_cases hg : s.next_seq_num < s.base + windowLimit s ∧
      s.next_seq_num < s.seq0 + s.total
  · rw [if_pos hg]
    have hwl : windowLimit s ≤ WINDOW_SIZE := min_le_right _ _
    refine ⟨by simp only; omega, by simp only; omega, ?_, by simp only [h4]⟩
    intro k hk
    simp only [Finset.mem_insert] at hk
    simp only
    rcases hk with rfl | hk
    · omega
    · have := h3 k hk
      omega
  · rw [if_neg hg]
    exact ⟨h1, h2, h3, h4⟩

theorem handle_ack_inv (s : SenderSt) (pkt : Packet)
    (hack : pkt.header.ack_num ≤ s.next_seq_num) (h : SenderInv s) :
    SenderInv (handle_ack s pkt).1 := by
  obtain ⟨h1, h2, h3, h4⟩ := h
  unfold handle_ack
  refine sackPrune_inv _ _ ?_
  unfold handle_ack_core
  by_cases hgt : pkt.header.ack_num > s.base
  · rw [if_pos hgt]
    obtain ⟨c1, c2, c3, c4, _⟩ :=
      congOnNewAck_fields { s with
        base := pkt.header.ack_num
        duplicate_acks := 0 }
    simp only at c1 c2 c3 c4
    refine ⟨?_, ?_, ?_, ?_⟩
    · simp only
      rw [c1, c2]
      exact hack
    · simp only
      rw [c1, c2]
      unfold WINDOW_SIZE at *
      omega
    · intro k hk
      simp only [c3, Finset.mem_filter] at hk
      simp only
      rw [c1, c2]
      have := h3 k hk.1
      have := hk.2
      omega
    · simp only
      rw [c3, c4, h4]
  · rw [if_neg hgt]
    by_cases hla : pkt.header.ack_num = s.last_acked
    · rw [if_pos hla]
      by_cases hd2 : s.duplicate_acks + 1 = 2
      · rw [if_pos hd2]
        by_cases hin : pkt.header.ack_num ∈ s.in_flight
        · rw [if_pos hin]
          exact ⟨h1, h2, h3, h4⟩
        · rw [if_neg hin]
          exact ⟨h1, h2, h3, h4⟩
      · rw [if_neg hd2]
        by_cases hfr : s.duplicate_acks + 1 > 2 ∧
            s.cong_state = CongState.FAST_RECOVERY
        · rw [if_pos hfr]
          exact ⟨h1, h2, h3, h4⟩
        · rw [if_neg hfr]
          exact ⟨h1, h2, h3, h4⟩
    · rw [if_neg hla]
      exact ⟨h1, h2, h3, h4⟩

theorem check_timeout_inv (s : SenderSt) (expired : List Nat)
    (h : SenderInv s) : SenderInv (check_timeout s expired).1 := by
  obtain ⟨h1, h2, h3, h4⟩ := h
  obtain ⟨i1, i2, i3, i4, _⟩ := timeout_fold expired (s, [])
  unfold check_timeout
  refine ⟨?_, ?_, ?_, ?_⟩
  · rw [i3, i4]; exact h1
  · rw [i3, i4]; exact h2
  · intro k hk
    rw [i1] at hk
    rw [i3, i4]
    exact h3 k hk
  · rw [i1, i2]; exact h4

theorem reachable_inv {s : SenderSt} (h : Reachable s) : SenderInv s := by
  induction h with
  | init seq0 total =>
    refine ⟨le_refl _, by unfold initSenderSt WINDOW_SIZE; simp, ?_, rfl⟩
    intro k hk
    simp [initSenderSt] at hk
  | fill _ ih => exact fillStep_inv _ ih
  | ack pkt _ _ _ hle ih => exact handle_ack_inv _ pkt hle ih
  | timeout expired _ _ ih => exact check_timeout_inv _ expired ih

/-- C4 (amended).  At every reachable sender state:
`base ≤ next_seq_num ≤ base + WINDOW_SIZE`, every in-flight key lies in
`[base, next_seq_num)`, and the in-flight size is at most `WINDOW_SIZE` and
at most `next_seq_num - base`.  (The claimed bounds against the *current*
`min(floor(cwnd), WINDOW_SIZE)` fail once `cwnd` shrinks — see
`window_invariant_counterexample`.) -/
theorem sender_window_invariant (s : SenderSt) (h : Reachable s) :
    s.base ≤ s.next_seq_num ∧ s.next_seq_num ≤ s.base + WINDOW_SIZE ∧
    (∀ k ∈ s.in_flight, s.base ≤ k ∧ k < s.next_seq_num) ∧
    s.in_flight.card ≤ WINDOW_SIZE ∧
    s.in_flight.card ≤ s.next_seq_num - s.base := by
  obtain ⟨h1, h2, h3, _⟩ := reachable_inv h
  have hsub : s.in_flight ⊆ Finset.Ico s.base s.next_seq_num := by
    intro k hk
    rw [Finset.mem_Ico]
    exact h3 k hk
  have hcard := Finset.card_le_card hsub
  rw [Nat.card_Ico] at hcard
  exact ⟨h1, h2, h3, by omega, hcard⟩

/-- Witness for amended C4 at the initial state. -/
theorem sender_window_invariant_witness :
    (initSenderSt 0 3).base ≤ (initSenderSt 0 3).next_seq_num ∧
    (initSenderSt 0 3).next_seq_num ≤ (initSenderSt 0 3).base + WINDOW_SIZE ∧
    (∀ k ∈ (initSenderSt 0 3).in_flight,
      (initSenderSt 0 3).base ≤ k ∧ k < (initSenderSt 0 3).next_seq_num) ∧
    (initSenderSt 0 3).in_flight.card ≤ WINDOW_SIZE ∧
    (initSenderSt 0 3).in_flight.card ≤
      (initSenderSt 0 3).next_seq_num - (initSenderSt 0 3).base :=
  sender_window_invariant _ (Reachable.init 0 3)

/-- A checksum-valid ACK with `ack_num = 1`. -/
def ackPkt1 : Packet :=
  setChecksum2 ⟨{ PacketHeader.zero with
      ptype := ACK_T
      ack_num := 1 }, [], []⟩

/-- The state reached by: send packet 0, receive ACK 1 (cwnd grows to 2),
send packets 1 and 2, then packet 1 times out (cwnd collapses to 1). -/
def c4state : SenderSt :=
  (check_timeout
    (fillStep
      (fillStep
        (handle_ack (fillStep (initSenderSt 0 3)).1 ackPkt1).1).1).1 [1]).1

/-- Counterexample to C4 as stated: a reachable state in which
`next_seq_num > base + min(floor(cwnd), WINDOW_SIZE)` and the in-flight
size exceeds `min(cwnd, WINDOW_SIZE)`. -/
theorem window_invariant_counterexample :
    Reachable c4state ∧
    ¬(c4state.next_seq_num ≤ c4state.base + windowLimit c4state) ∧
    ¬(c4state.in_flight.card ≤ min (ratFloorNat c4state.cwnd) WINDOW_SIZE) := by
  have ha : ackPkt1.header.ack_num = 1 := rfl
  have hsb : ackPkt1.sack_blocks = [] := rfl
  refine ⟨?_, ?_, ?_⟩
  · refine Reachable.timeout [1] ?_ (by decide)
    refine Reachable.fill (Reachable.fill ?_)
    refine Reachable.ack ackPkt1 (Reachable.fill (Reachable.init 0 3))
      (by decide) (by decide) (by decide)
  · norm_num [c4state, check_timeout, timeoutBody, fillStep, handle_ack,
      handle_ack_core, sackPrune, congOnNewAck, initSenderSt, windowLimit,
      ratFloorNat, WINDOW_SIZE, Int.toNat, Nat.cast_ofNat, ha, hsb]
  · norm_num [c4state, check_timeout, timeoutBody, fillStep, handle_ack,
      handle_ack_core, sackPrune, congOnNewAck, initSenderSt, windowLimit,
      ratFloorNat, WINDOW_SIZE, Int.toNat, Nat.cast_ofNat, ha, hsb]

/-- C5.  SACK honored: (a) after `handle_ack` processes an ACK, every
sequence covered by one of its SACK blocks is gone from `sent_packets` and
from `send_times`; (b) the SACK pruning loop itself never changes `base`;
(c) `handle_ack` never decreases `base` (the cumulative ACK cannot regress);
(d) from any state in which a sequence `q` below `next_seq_num` is not in
flight — in particular right after it was SACK-erased — no continuation of
the sender ever transmits `q` again and `q` never re-enters the in-flight
map. -/
theorem sack_honored :
    (∀ (s : SenderSt) (pkt : Packet) (sb : SACKBlock) (k : Nat),
      sb ∈ pkt.sack_blocks → sb.left_edge ≤ k → k < sb.right_edge →
      k ∉ (handle_ack s pkt).1.in_flight ∧
        k ∉ (handle_ack s pkt).1.send_times) ∧
    (∀ (s : SenderSt) (blocks : List SACKBlock),
      (sackPrune s blocks).base = s.base) ∧
    (∀ (s : SenderSt) (pkt : Packet), s.base ≤ (handle_ack s pkt).1.base) ∧
    (∀ (s : SenderSt) (evs : List SendEv) (q : Nat),
      q ∉ s.in_flight → q < s.next_seq_num →
      (∀ tx ∈ (runSender s evs).2, tx.1 ≠ q) ∧
      q ∉ (runSender s evs).1.in_flight) := by
  refine ⟨?_, ?_, ?_, ?_⟩
  · intro s pkt sb k hsb hl hr
    have e : (handle_ack s pkt).1 =
        sackPrune (handle_ack_core s pkt.header.ack_num).1 pkt.sack_blocks :=
      rfl
    rw [e]
    exact sackPrune_erases pkt.sack_blocks _ sb hsb k hl hr
  · intro s blocks
    exact (sackPrune_fields blocks s).1
  · intro s pkt
    have e : (handle_ack s pkt).1 =
        sackPrune (handle_ack_core s pkt.header.ack_num).1 pkt.sack_blocks :=
      rfl
    rw [e, (sackPrune_fields _ _).1]
    exact handle_ack_core_base s pkt.header.ack_num
  · intro s evs
    induction evs generalizing s with
    | nil =>
      intro q hq _
      exact ⟨fun tx htx => absurd htx (by simp [runSender]), hq⟩
    | cons e rest ih =>
      intro q hq hqn
      have hstep : (∀ tx ∈ (senderStep s e).2, tx.1 ≠ q) ∧
          q ∉ (senderStep s e).1.in_flight ∧
          q < (senderStep s e).1.next_seq_num := by
        rcases e with _ | pkt | expired
        · unfold senderStep fillStep
          by_cases hg : s.next_seq_num < s.base + windowLimit s ∧
              s.next_seq_num < s.seq0 + s.total
          · rw [if_pos hg]
            refine ⟨?_, ?_, by simp only; omega⟩
            · intro tx htx
              simp only [List.mem_singleton] at htx
              subst htx
              simp only
              omega
            · simp only [Finset.mem_insert]
              push_neg
              exact ⟨by omega, hq⟩
          · rw [if_neg hg]
            exact ⟨fun tx htx => absurd htx (by simp), hq, hqn⟩
        · have estep : senderStep s (SendEv.ack pkt) =
              if pkt.header.ptype = ACK_T ∧ verify_checksum2 pkt = true then
                handle_ack s pkt
              else (s, []) := rfl
          rw [estep]
          by_cases hv : pkt.header.ptype = ACK_T ∧ verify_checksum2 pkt = true
          · rw [if_pos hv]
            refine ⟨?_, ?_, ?_⟩
            · intro tx htx
              have e2 : (handle_ack s pkt).2 =
                  (handle_ack_core s pkt.header.ack_num).2 := rfl
              rw [e2] at htx
              have := handle_ack_core_out s pkt.header.ack_num tx htx
              intro hcontra
              rw [hcontra] at this
              exact hq this.1
            · intro hcontra
              have e : (handle_ack s pkt).1 =
                  sackPrune (handle_ack_core s pkt.header.ack_num).1
                    pkt.sack_blocks := rfl
              rw [e] at hcontra
              have hs1 := (sackPrune_subset _ _).1 hcontra
              have hs2 := (handle_ack_core_subset s pkt.header.ack_num).1 hs1
              exact hq hs2
            · have e : (handle_ack s pkt).1 =
                  sackPrune (handle_ack_core s pkt.header.ack_num).1
                    pkt.sack_blocks := rfl
              rw [e, (sackPrune_fields _ _).2.1, handle_ack_core_next]
              exact hqn
          · rw [if_neg hv]
            exact ⟨fun tx htx => absurd htx (by simp), hq, hqn⟩
        · unfold senderStep check_timeout
          obtain ⟨i1, _, _, i4, _, _, _, i8⟩ := timeout_fold expired (s, [])
          refine ⟨?_, ?_, ?_⟩
          · intro tx htx
            rcases i8 tx htx with hemp | hmem
            · simp at hemp
            · intro hcontra
              rw [hcontra] at hmem
              exact hq hmem.1
          · rw [i1]
            exact hq
          · rw [i4]
            exact hqn
      obtain ⟨hout, hq', hqn'⟩ := hstep
      have := ih (senderStep s e).1 q hq' hqn'
      unfold runSender
      refine ⟨?_, this.2⟩
      intro tx htx
      simp only [List.mem_append] at htx
      rcases htx with htx | htx
      · exact hout tx htx
      · exact this.1 tx htx

/-- Concrete packets and state witnessing C5: the SACK block `[1, 3)` erases
sequence 2 from a sender with packets 1, 2, 3 in flight. -/
def c5state : SenderSt :=
  ⟨0, 10, 1, 4, {1, 2, 3}, {1, 2, 3}, CongState.SLOW_START, 4, 16, 0, 1⟩

def ackPktSack : Packet :=
  setChecksum2 ⟨{ PacketHeader.zero with
      ptype := ACK_T
      ack_num := 1
      sack_count := 1 }, [], [⟨1, 3⟩]⟩

/-- Witness for C5 at a concrete state and SACK-carrying ACK. -/
theorem sack_honored_witness :
    (2 ∉ (handle_ack c5state ackPktSack).1.in_flight ∧
      2 ∉ (handle_ack c5state ackPktSack).1.send_times) ∧
    (sackPrune c5state [⟨1, 3⟩]).base = c5state.base ∧
    c5state.base ≤ (handle_ack c5state ackPktSack).1.base ∧
    ((∀ tx ∈ (runSender (handle_ack c5state ackPktSack).1
        [SendEv.fill, SendEv.timeout [2]]).2, tx.1 ≠ 2) ∧
      2 ∉ (runSender (handle_ack c5state ackPktSack).1
        [SendEv.fill, SendEv.timeout [2]]).1.in_flight) :=
  ⟨sack_honored.1 c5state ackPktSack ⟨1, 3⟩ 2 (by decide) (by decide)
      (by decide),
    sack_honored.2.1 c5state [⟨1, 3⟩],
    sack_honored.2.2.1 c5state ackPktSack,
    sack_honored.2.2.2 (handle_ack c5state ackPktSack).1
      [SendEv.fill, SendEv.timeout [2]] 2 (by decide) (by decide)⟩

/-- Sender state with `last_acked = 5`, one prior duplicate ACK, and packet
5 still in flight: the failing input for C3. -/
def s3 : SenderSt :=
  ⟨0, 100, 5, 6, {5}, {5}, CongState.SLOW_START, 8, 16, 1, 5⟩

/-- A checksum-valid duplicate ACK with `ack_num = 5`. -/
def ackPkt5 : Packet :=
  setChecksum2 ⟨{ PacketHeader.zero with
      ptype := ACK_T
      ack_num := 5 }, [], []⟩

/-- C3, evaluated at the failing input: the first-draft `handle_ack`
(sender.cpp line 514, `duplicate_acks == 2`) fires the complete
fast-retransmit action — retransmission of packet 5, `ssthresh =
max(cwnd/2, 2) = 4`, `cwnd = ssthresh + 3 = 7`, FAST_RECOVERY — already on
the SECOND duplicate ACK, while the second draft (line 1028,
`duplicate_acks == 3`) does nothing at two duplicates and fires exactly the
same action on the third. -/
theorem fast_retransmit_trigger :
    (handle_ack s3 ackPkt5).2 = [(5, true)] ∧
    (handle_ack s3 ackPkt5).1.duplicate_acks = 2 ∧
    (handle_ack s3 ackPkt5).1.ssthresh = 4 ∧
    (handle_ack s3 ackPkt5).1.cwnd = 7 ∧
    (handle_ack s3 ackPkt5).1.cong_state = CongState.FAST_RECOVERY ∧
    (handle_ack_v2 s3 ackPkt5).2 = [] ∧
    (handle_ack_v2 s3 ackPkt5).1.duplicate_acks = 2 ∧
    (handle_ack_v2 (handle_ack_v2 s3 ackPkt5).1 ackPkt5).2 = [(5, true)] ∧
    (handle_ack_v2 (handle_ack_v2 s3 ackPkt5).1 ackPkt5).1.duplicate_acks = 3 ∧
    (handle_ack_v2 (handle_ack_v2 s3 ackPkt5).1 ackPkt5).1.ssthresh = 4 ∧
    (handle_ack_v2 (handle_ack_v2 s3 ackPkt5).1 ackPkt5).1.cwnd = 7 ∧
    (handle_ack_v2 (handle_ack_v2 s3 ackPkt5).1 ackPkt5).1.cong_state =
      CongState.FAST_RECOVERY := by
  have ha : ackPkt5.header.ack_num = 5 := rfl
  have hsb : ackPkt5.sack_blocks = [] := rfl
  norm_num [handle_ack, handle_ack_v2, handle_ack_core, handle_ack_core_v2,
    sackPrune, s3, ratFloorNat, Int.toNat, Nat.max_def, Nat.cast_ofNat,
    ha, hsb]

/-- Sender state with packet 0 in flight awaiting the first ACK. -/
def s10 : SenderSt :=
  ⟨0, 3, 0, 1, {0}, {0}, CongState.SLOW_START, 1, 16, 0, 0⟩

/-- A checksum-valid cumulative ACK for sequence 1. -/
def ackPktA : Packet :=
  setChecksum2 ⟨{ PacketHeader.zero with
      ptype := ACK_T
      ack_num := 1
      window_size := 16 }, [], []⟩

/-- The same ACK with only the advertised window changed (checksum kept). -/
def ackPktB : Packet :=
  ⟨{ ackPktA.header with window_size := 17 }, ackPktA.data,
    ackPktA.sack_blocks⟩

/-- Counterexample to C10 as stated: two inbound ACKs that differ only in
the `window_size` field of the header produce different sender behaviour,
because the checksum gate in `send_file` sums the window bytes — the
modified copy fails verification and is dropped, so the sender's state
evolution diverges. -/
theorem window_independence_counterexample :
    ackPktB.header.ptype = ackPktA.header.ptype ∧
    ackPktB.header.flags = ackPktA.header.flags ∧
    ackPktB.header.checksum = ackPktA.header.checksum ∧
    ackPktB.header.seq_num = ackPktA.header.seq_num ∧
    ackPktB.header.ack_num = ackPktA.header.ack_num ∧
    ackPktB.header.data_length = ackPktA.header.data_length ∧
    ackPktB.header.sack_count = ackPktA.header.sack_count ∧
    ackPktB.data = ackPktA.data ∧
    ackPktB.sack_blocks = ackPktA.sack_blocks ∧
    ackPktB.header.window_size ≠ ackPktA.header.window_size ∧
    verify_checksum2 ackPktA = true ∧
    verify_checksum2 ackPktB = false ∧
    (senderStep s10 (SendEv.ack ackPktA)).1 ≠
      (senderStep s10 (SendEv.ack ackPktB)).1 := by
  refine ⟨rfl, rfl, rfl, rfl, rfl, rfl, rfl, rfl, rfl, by decide, by decide,
    by decide, ?_⟩
  have ha : ackPktA.header.ack_num = 1 := rfl
  have hsb : ackPktA.sack_blocks = [] := rfl
  have hA : (senderStep s10 (SendEv.ack ackPktA)).1.base = 1 := by
    have estep : senderStep s10 (SendEv.ack ackPktA) =
        if ackPktA.header.ptype = ACK_T ∧ verify_checksum2 ackPktA = true then
          handle_ack s10 ackPktA
        else (s10, []) := rfl
    rw [estep, if_pos ⟨rfl, by decide⟩]
    norm_num [handle_ack, handle_ack_core, sackPrune, congOnNewAck, s10,
      ratFloorNat, Int.toNat, Nat.cast_ofNat, ha, hsb]
  have hB : (senderStep s10 (SendEv.ack ackPktB)).1 = s10 := by
    have estep : senderStep s10 (SendEv.ack ackPktB) =
        if ackPktB.header.ptype = ACK_T ∧ verify_checksum2 ackPktB = true then
          handle_ack s10 ackPktB
        else (s10, []) := rfl
    rw [estep, if_neg (by decide)]
  intro hcontra
  rw [hB] at hcontra
  have hb := congrArg SenderSt.base hcontra
  rw [hA] at hb
  exact absurd hb (by decide)

/-- C10 (amended).  Once an ACK reaches `handle_ack`, the sender never
reads its `window_size`: replacing the field changes neither the resulting
state nor the transmissions; and `window_limit` is a function of `cwnd`
(and the constant WINDOW_SIZE) alone. -/
theorem sender_ignores_window (s : SenderSt) (pkt : Packet) (w : Nat) :
    handle_ack s ⟨{ pkt.header with window_size := w }, pkt.data,
      pkt.sack_blocks⟩ = handle_ack s pkt ∧
    (∀ s' : SenderSt, s'.cwnd = s.cwnd → windowLimit s' = windowLimit s) := by
  constructor
  · rfl
  · intro s' hcw
    unfold windowLimit
    rw [hcw]

/-- Witness for amended C10 at a concrete state and packet. -/
theorem sender_ignores_window_witness :
    handle_ack s10 ⟨{ ackPktA.header with window_size := 9 }, ackPktA.data,
      ackPktA.sack_blocks⟩ = handle_ack s10 ackPktA ∧
    (∀ s' : SenderSt, s'.cwnd = s10.cwnd → windowLimit s' = windowLimit s10) :=
  sender_ignores_window s10 ackPktA 9

end WebLab
